import Mathlib

/-!
Shallow embedding of the CP-SAT translation layer of the `dabke` scheduler
solver (`src/solver/src/solver/solver.py` together with the request/response
data model of `src/solver/src/solver/models.py`), and proofs about it.

The external CP-SAT engine is treated as a black-box oracle: the embedding
reproduces the model that the compiler hands to the engine (variables with
their domains, intervals, native constraints, at most one optimization
direction) and is parameterised over the oracle's verdict (a raw status code
plus an assignment of an integer to every model variable and the solver
statistics).  Python exceptions are embedded as `Except String`; the
`try/except` boundary of `solve_request` becomes a pattern match at the top.
Python `dict`s are embedded as association lists with insert-or-overwrite
semantics (an update keeps the key's original position, as CPython does).
-/

namespace SolverSpec

/-- Embeds `models.Term`: a linear term `var * coeff`. -/
structure Term where
  var : String
  coeff : Int
deriving DecidableEq, Repr

/-- Embeds `models.Variable`: a declared decision variable.  `type` is one of
`"bool"`, `"int"`, `"interval"`; the optional fields mirror the pydantic
model (all optional, present depending on the type). -/
structure Variable where
  type : String
  name : String
  min : Option Int := none
  max : Option Int := none
  start : Option Int := none
  end_ : Option Int := none
  size : Option Int := none
  presenceVar : Option String := none
deriving DecidableEq, Repr

/-- Embeds `models.Constraint`: the tagged union over the eight constraint kinds;
as in the pydantic model every payload field is optional. -/
structure Constraint where
  type : String
  terms : Option (List Term) := none
  op : Option String := none
  rhs : Option Int := none
  penalty : Option Int := none
  vars : Option (List String) := none
  intervals : Option (List String) := none
  if_ : Option String := none
  then_ : Option String := none
  id : Option String := none
deriving DecidableEq, Repr

/-- Embeds `models.Objective`. -/
structure Objective where
  sense : String
  terms : List Term
deriving DecidableEq, Repr

/-- Embeds `models.Options` (the time limit is a real number in the source; it is
only forwarded verbatim to the oracle, so it is embedded as a rational). -/
structure Options where
  timeLimitSeconds : Rat := 60
  solutionLimit : Option Int := none
deriving DecidableEq, Repr

/-- Embeds `models.SolverRequest`. -/
structure SolverRequest where
  «variables» : List Variable
  constraints : List Constraint
  objective : Option Objective := none
  options : Option Options := none
deriving DecidableEq, Repr

/-- Embeds `models.SoftConstraintViolation`. -/
structure SoftConstraintViolation where
  constraintId : String
  violationAmount : Int
  targetValue : Int
  actualValue : Int
deriving DecidableEq, Repr

/-- Embeds `models.SolverResponse`.  Statistics values are integers in the
embedding (the wall-time/objective floats of the source are irrelevant to
every property proved here; only which keys are present matters). -/
structure SolverResponse where
  status : String
  values : Option (List (String × Int)) := none
  statistics : Option (List (String × Int)) := none
  error : Option String := none
  solutionInfo : Option String := none
  softViolations : Option (List SoftConstraintViolation) := none
deriving DecidableEq, Repr

/-- Embeds `solver._VariableBounds`. -/
structure VariableBounds where
  lower : Int
  upper : Int
deriving DecidableEq, Repr, Inhabited

/-! ### Python `dict` as an association list -/

/-- Lookup: the unique binding of a key (keys are unique by construction of
`dictInsert`). -/
def dictGet? {α : Type} : List (String × α) → String → Option α
  | [], _ => none
  | (k, v) :: rest, key => if k = key then some v else dictGet? rest key

/-- Embeds `d[k] = v` on a Python dict: overwrite in place when the key exists
(keeping its original position), otherwise append. -/
def dictInsert {α : Type} (key : String) (v : α) : List (String × α) → List (String × α)
  | [] => [(key, v)]
  | (k, w) :: rest => if k = key then (key, v) :: rest else (k, w) :: dictInsert key v rest

/-! ### The CP-SAT model handed to the oracle

A model variable is identified by its handle: the index at which it was
created.  `NewBoolVar`, `NewIntVar` and the constants created for interval
endpoints all allocate one entry (constants are not cached; the cache in the
engine's API only merges equal constants and is observationally irrelevant
here since every handle used is the one returned at creation). -/

/-- One engine-side integer variable: its domain and its label. -/
structure ModelVar where
  lb : Int
  ub : Int
  name : String
deriving DecidableEq, Repr, Inhabited

/-- A linear expression over model variables: a list of
(handle, coefficient) pairs plus a constant offset. -/
structure LinExpr where
  coeffs : List (Nat × Int)
  const : Int
deriving DecidableEq, Repr

def LinExpr.ofConst (c : Int) : LinExpr := ⟨[], c⟩

def LinExpr.ofVar (h : Nat) : LinExpr := ⟨[(h, 1)], 0⟩

/-- Embeds `var * c`. -/
def LinExpr.varMul (h : Nat) (c : Int) : LinExpr := ⟨[(h, c)], 0⟩

def LinExpr.add (a b : LinExpr) : LinExpr := ⟨a.coeffs ++ b.coeffs, a.const + b.const⟩

def LinExpr.neg (a : LinExpr) : LinExpr := ⟨a.coeffs.map (fun p => (p.1, -p.2)), -a.const⟩

def LinExpr.sub (a b : LinExpr) : LinExpr := a.add b.neg

/-- The native constraints emitted to the engine. -/
inductive NativeConstraint where
  | le (lhs rhs : LinExpr)
  | ge (lhs rhs : LinExpr)
  | eq (lhs rhs : LinExpr)
  | exactlyOne (lits : List Nat)
  | atMostOne (lits : List Nat)
  | implication (a b : Nat)
  | boolOr (lits : List Nat)
  | boolAnd (lits : List Nat)
  | noOverlap (ivs : List Nat)
deriving DecidableEq, Repr

/-- An engine-side interval: handles of its constant start/end variables, the
fixed size, an optional presence handle, and the label. -/
structure ModelInterval where
  startVar : Nat
  size : Int
  endVar : Nat
  presence : Option Nat
  name : String
deriving DecidableEq, Repr

/-- The model being built for the oracle. -/
structure CpModel where
  vars : List ModelVar := []
  intervals : List ModelInterval := []
  constraints : List NativeConstraint := []
  objective : Option (String × LinExpr) := none
deriving DecidableEq, Repr

/-- Embeds `model.NewIntVar(lb, ub, name)`: allocate a variable, return its handle. -/
def CpModel.newIntVar (m : CpModel) (lb ub : Int) (name : String) : CpModel × Nat :=
  ({ m with vars := m.vars ++ [⟨lb, ub, name⟩] }, m.vars.length)

/-- Embeds `model.NewBoolVar(name)`: a 0/1 variable. -/
def CpModel.newBoolVar (m : CpModel) (name : String) : CpModel × Nat :=
  m.newIntVar 0 1 name

/-- Embeds `model.NewConstant(c)`: a variable with the singleton domain. -/
def CpModel.newConstant (m : CpModel) (c : Int) : CpModel × Nat :=
  m.newIntVar c c ""

def CpModel.addConstraint (m : CpModel) (c : NativeConstraint) : CpModel :=
  { m with constraints := m.constraints ++ [c] }

def CpModel.addInterval (m : CpModel) (iv : ModelInterval) : CpModel × Nat :=
  ({ m with intervals := m.intervals ++ [iv] }, m.intervals.length)

/-- Embeds `solver._TrackedSoftConstraint`. -/
structure TrackedSoftConstraint where
  constraint_id : String
  violation_var : Nat
  target_value : Int
  comparator : String
  terms : List Term
deriving DecidableEq, Repr

abbrev BoundsMap := List (String × VariableBounds)
abbrev VarsMap := List (String × Nat)
abbrev IntervalsMap := List (String × Nat)

/-! ### The compiler, translated function by function from `solver.py` -/

/-- The loop body of `solver._collect_bounds`, threading the dict being built. -/
def collect_bounds_loop (acc : BoundsMap) : List Variable → Except String BoundsMap
  | [] => .ok acc
  | v :: rest =>
    if v.type = "bool" then
      collect_bounds_loop (dictInsert v.name ⟨0, 1⟩ acc) rest
    else if v.type = "int" then
      match v.min, v.max with
      | some mn, some mx => collect_bounds_loop (dictInsert v.name ⟨mn, mx⟩ acc) rest
      | _, _ => .error ("Int variable " ++ v.name ++ " requires min and max")
    else if v.type = "interval" then
      -- Interval variables are not referenced in linear expressions.
      collect_bounds_loop acc rest
    else
      .error ("Unknown variable type " ++ v.type)

/-- Embeds `solver._collect_bounds`. -/
def collect_bounds («variables» : List Variable) : Except String BoundsMap :=
  collect_bounds_loop [] «variables»

/-- Embeds `solver._term_range`. -/
def term_range (t : Term) (b : VariableBounds) : Int × Int :=
  if t.coeff ≥ 0 then (t.coeff * b.lower, t.coeff * b.upper)
  else (t.coeff * b.upper, t.coeff * b.lower)

/-- The loop of `solver._expression_range`, accumulating the running sums. -/
def expression_range_loop (bounds : BoundsMap) (min_expr max_expr : Int) :
    List Term → Except String (Int × Int)
  | [] => .ok (min_expr, max_expr)
  | t :: rest =>
    match dictGet? bounds t.var with
    | none => .error ("Unknown variable " ++ t.var)
    | some b =>
      let tr := term_range t b
      expression_range_loop bounds (min_expr + tr.1) (max_expr + tr.2) rest

/-- Embeds `solver._expression_range`. -/
def expression_range (terms : List Term) (bounds : BoundsMap) : Except String (Int × Int) :=
  expression_range_loop bounds 0 0 terms

/-- Embeds `solver._sum_expr`: `None` for an empty list, otherwise the running sum. -/
def sum_expr : List LinExpr → Option LinExpr
  | [] => none
  | e :: rest => some (rest.foldl LinExpr.add e)

/-- A Python dict lookup `vars_map[name]` (raises `KeyError` when absent). -/
def varsMapGet (vars_map : VarsMap) (name : String) : Except String Nat :=
  match dictGet? vars_map name with
  | some h => .ok h
  | none => .error ("KeyError: " ++ name)

/-- Embeds `sum(vars_map[t.var] * t.coeff for t in terms)`: the running sum starting
from the integer 0. -/
def exprOfTerms (terms : List Term) (vars_map : VarsMap) : Except String LinExpr := do
  let es ← terms.mapM (fun t => (varsMapGet vars_map t.var).map (fun h => LinExpr.varMul h t.coeff))
  .ok (es.foldl LinExpr.add (LinExpr.ofConst 0))

/-- Embeds `solver._add_linear_constraint`. -/
def add_linear_constraint (model : CpModel) (c : Constraint) (vars_map : VarsMap) :
    Except String CpModel :=
  match c.terms, c.op, c.rhs with
  | some ts, some op', some r =>
    if ts.isEmpty then .error "Linear constraint requires terms, op, and rhs"
    else do
      let e ← exprOfTerms ts vars_map
      match op' with
      | "<=" => .ok (model.addConstraint (.le e (LinExpr.ofConst r)))
      | ">=" => .ok (model.addConstraint (.ge e (LinExpr.ofConst r)))
      | "==" => .ok (model.addConstraint (.eq e (LinExpr.ofConst r)))
      | _ => .error ("Unsupported linear operator " ++ op')
  | _, _, _ => .error "Linear constraint requires terms, op, and rhs"

/-- Embeds the constraint-id fallback of the handler (Python `or` falls through
to the synthetic id both when `id` is `None` and when it is the (falsy)
empty string. -/
def softConstraintId (c : Constraint) (constraint_index : Nat) : String :=
  match c.id with
  | some s => if s = "" then "soft_" ++ toString constraint_index else s
  | none => "soft_" ++ toString constraint_index

/-- Embeds `solver._add_soft_linear_constraint`.  The mutations of `model`,
`penalty_terms` and `tracked_constraints` become the returned triple. -/
def add_soft_linear_constraint (model : CpModel) (c : Constraint) (vars_map : VarsMap)
    (bounds : BoundsMap) (penalty_terms : List LinExpr)
    (tracked_constraints : List TrackedSoftConstraint) (constraint_index : Nat) :
    Except String (CpModel × List LinExpr × List TrackedSoftConstraint) :=
  match c.terms, c.op, c.rhs, c.penalty with
  | some ts, some op', some r, some p =>
    if ts.isEmpty then .error "Soft linear constraint requires terms, op, rhs, and penalty"
    else do
      let range ← expression_range ts bounds
      let min_expr := range.1
      let max_expr := range.2
      let e ← exprOfTerms ts vars_map
      let constraint_id := softConstraintId c constraint_index
      let step : Except String (CpModel × Int × Nat) :=
        match op' with
        | "<=" =>
          let max_violation := max 0 (max_expr - r)
          let (m1, h) := model.newIntVar 0 max_violation ("violation_" ++ constraint_id)
          -- model.Add(expr <= constraint.rhs + violation)
          .ok (m1.addConstraint (.le e ⟨[(h, 1)], r⟩), max_violation, h)
        | ">=" =>
          let max_violation := max 0 (r - min_expr)
          let (m1, h) := model.newIntVar 0 max_violation ("violation_" ++ constraint_id)
          -- model.Add(expr + violation >= constraint.rhs)
          .ok (m1.addConstraint (.ge (e.add (LinExpr.ofVar h)) (LinExpr.ofConst r)), max_violation, h)
        | _ => .error ("Unsupported soft linear operator " ++ op')
      match step with
      | .error msg => .error msg
      | .ok (m2, max_violation, h) =>
        if max_violation > 0 then
          let penalty_terms' := penalty_terms ++ [LinExpr.varMul h p]
          let tracked' :=
            if c.id ≠ none then
              tracked_constraints ++ [⟨constraint_id, h, r, op', ts⟩]
            else tracked_constraints
          .ok (m2, penalty_terms', tracked')
        else
          .ok (m2, penalty_terms, tracked_constraints)
  | _, _, _, _ => .error "Soft linear constraint requires terms, op, rhs, and penalty"

/-- Embeds `[vars_map[v] for v in names]`. -/
def resolveHandles (vars_map : VarsMap) (names : List String) : Except String (List Nat) :=
  names.mapM (varsMapGet vars_map)

/-- Embeds `solver._add_exactly_one`. -/
def add_exactly_one (model : CpModel) (c : Constraint) (vars_map : VarsMap) :
    Except String CpModel :=
  match c.vars with
  | some vs =>
    if vs.isEmpty then .error "Exactly one constraint requires vars"
    else do
      let lits ← resolveHandles vars_map vs
      .ok (model.addConstraint (.exactlyOne lits))
  | none => .error "Exactly one constraint requires vars"

/-- Embeds `solver._add_at_most_one`. -/
def add_at_most_one (model : CpModel) (c : Constraint) (vars_map : VarsMap) :
    Except String CpModel :=
  match c.vars with
  | some vs =>
    if vs.isEmpty then .error "At most one constraint requires vars"
    else do
      let lits ← resolveHandles vars_map vs
      .ok (model.addConstraint (.atMostOne lits))
  | none => .error "At most one constraint requires vars"

/-- Embeds `solver._add_implication`. -/
def add_implication (model : CpModel) (c : Constraint) (vars_map : VarsMap) :
    Except String CpModel :=
  match c.if_, c.then_ with
  | some a, some b => do
    let ha ← varsMapGet vars_map a
    let hb ← varsMapGet vars_map b
    .ok (model.addConstraint (.implication ha hb))
  | _, _ => .error "Implication constraint requires if/then"

/-- Embeds `solver._add_bool_or`. -/
def add_bool_or (model : CpModel) (c : Constraint) (vars_map : VarsMap) :
    Except String CpModel :=
  match c.vars with
  | some vs =>
    if vs.isEmpty then .error "Bool OR constraint requires vars"
    else do
      let lits ← resolveHandles vars_map vs
      .ok (model.addConstraint (.boolOr lits))
  | none => .error "Bool OR constraint requires vars"

/-- Embeds `solver._add_bool_and`. -/
def add_bool_and (model : CpModel) (c : Constraint) (vars_map : VarsMap) :
    Except String CpModel :=
  match c.vars with
  | some vs =>
    if vs.isEmpty then .error "Bool AND constraint requires vars"
    else do
      let lits ← resolveHandles vars_map vs
      .ok (model.addConstraint (.boolAnd lits))
  | none => .error "Bool AND constraint requires vars"

/-- Embeds `solver._add_no_overlap`. -/
def add_no_overlap (model : CpModel) (c : Constraint) (intervals_map : IntervalsMap) :
    Except String CpModel :=
  match c.intervals with
  | some ivs =>
    if ivs.isEmpty then .error "NoOverlap constraint requires intervals"
    else do
      let handles ← resolveHandles intervals_map ivs
      .ok (model.addConstraint (.noOverlap handles))
  | none => .error "NoOverlap constraint requires intervals"

/-- Embeds `[vars_map[t.var] * t.coeff for t in objective.terms]`. -/
def objective_term_exprs (terms : List Term) (vars_map : VarsMap) :
    Except String (List LinExpr) :=
  terms.mapM (fun t => (varsMapGet vars_map t.var).map (fun h => LinExpr.varMul h t.coeff))

/-- Embeds `solver._build_objective`.  The calls to `model.Minimize` / `model.Maximize`
become the model's `objective` field; the returned boolean is the source's
return value (`True` iff an optimization direction was sent). -/
def build_objective (model : CpModel) (objective : Option Objective) (vars_map : VarsMap)
    (penalty_terms : List LinExpr) : Except String (CpModel × Bool) :=
  let penalty_expr := sum_expr penalty_terms
  match objective with
  | some obj => do
    let objective_terms ← objective_term_exprs obj.terms vars_map
    let obj_expr := sum_expr objective_terms
    let chosen : Option LinExpr :=
      match obj_expr, penalty_expr with
      | some oe, some pe => some (if obj.sense = "minimize" then oe.add pe else oe.sub pe)
      | some oe, none => some oe
      | none, some pe => some (if obj.sense = "minimize" then pe else pe.neg)
      | none, none => none
    match chosen with
    | none => .ok (model, false)
    | some e =>
      if obj.sense = "maximize" then
        .ok ({ model with objective := some ("maximize", e) }, true)
      else
        .ok ({ model with objective := some ("minimize", e) }, true)
  | none =>
    match penalty_expr with
    | some pe => .ok ({ model with objective := some ("minimize", pe) }, true)
    | none => .ok (model, false)

/-- The variable-creation loop of `solve_request` (lines 236-266 of
`solver.py`), threading the model and the two name→handle dicts. -/
def materializeVariables (m : CpModel) (vars_map : VarsMap) (intervals_map : IntervalsMap) :
    List Variable → Except String (CpModel × VarsMap × IntervalsMap)
  | [] => .ok (m, vars_map, intervals_map)
  | v :: rest =>
    if v.type = "bool" then
      let (m1, h) := m.newBoolVar v.name
      materializeVariables m1 (dictInsert v.name h vars_map) intervals_map rest
    else if v.type = "int" then
      match v.min, v.max with
      | some mn, some mx =>
        let (m1, h) := m.newIntVar mn mx v.name
        materializeVariables m1 (dictInsert v.name h vars_map) intervals_map rest
      | _, _ => .error ("Int variable " ++ v.name ++ " requires min and max")
    else if v.type = "interval" then
      match v.start, v.end_, v.size with
      | some s, some e, some sz =>
        if e - s ≠ sz then
          .error ("Interval variable " ++ v.name ++ " inconsistent: end-start=" ++
            toString (e - s) ++ " != size=" ++ toString sz)
        else
          let (m1, hs) := m.newConstant s
          let (m2, he) := m1.newConstant e
          match v.presenceVar with
          | none =>
            let (m3, hiv) := m2.addInterval ⟨hs, sz, he, none, v.name⟩
            materializeVariables m3 vars_map (dictInsert v.name hiv intervals_map) rest
          | some pn =>
            match dictGet? vars_map pn with
            | none =>
              .error ("Interval variable " ++ v.name ++ " references unknown presenceVar " ++ pn)
            | some ph =>
              let (m3, hiv) := m2.addInterval ⟨hs, sz, he, some ph, v.name⟩
              materializeVariables m3 vars_map (dictInsert v.name hiv intervals_map) rest
      | _, _, _ => .error ("Interval variable " ++ v.name ++ " requires start, end, and size")
    else
      .error ("Unsupported variable type " ++ v.type)

/-- The body of the constraint-dispatch loop of `solve_request`
(lines 272-300): one constraint is matched on its `type` tag and handed to
its handler; the soft-linear counter advances only for soft constraints. -/
def compileOneConstraint (bounds : BoundsMap) (vars_map : VarsMap) (intervals_map : IntervalsMap)
    (c : Constraint) (m : CpModel) (pts : List LinExpr) (tr : List TrackedSoftConstraint)
    (idx : Nat) :
    Except String (CpModel × List LinExpr × List TrackedSoftConstraint × Nat) :=
  if c.type = "linear" then do
    let m' ← add_linear_constraint m c vars_map
    .ok (m', pts, tr, idx)
  else if c.type = "soft_linear" then do
    let (m', pts', tr') ← add_soft_linear_constraint m c vars_map bounds pts tr idx
    .ok (m', pts', tr', idx + 1)
  else if c.type = "exactly_one" then do
    let m' ← add_exactly_one m c vars_map
    .ok (m', pts, tr, idx)
  else if c.type = "at_most_one" then do
    let m' ← add_at_most_one m c vars_map
    .ok (m', pts, tr, idx)
  else if c.type = "implication" then do
    let m' ← add_implication m c vars_map
    .ok (m', pts, tr, idx)
  else if c.type = "bool_or" then do
    let m' ← add_bool_or m c vars_map
    .ok (m', pts, tr, idx)
  else if c.type = "bool_and" then do
    let m' ← add_bool_and m c vars_map
    .ok (m', pts, tr, idx)
  else if c.type = "no_overlap" then do
    let m' ← add_no_overlap m c intervals_map
    .ok (m', pts, tr, idx)
  else
    .error ("Unsupported constraint type " ++ c.type)

/-- The constraint-dispatch loop of `solve_request` (lines 272-300), threading
the model, the penalty terms, the tracked soft constraints and the soft
constraint counter. -/
def compileConstraints (bounds : BoundsMap) (vars_map : VarsMap) (intervals_map : IntervalsMap) :
    List Constraint → CpModel → List LinExpr → List TrackedSoftConstraint → Nat →
    Except String (CpModel × List LinExpr × List TrackedSoftConstraint)
  | [], m, pts, tr, _ => .ok (m, pts, tr)
  | c :: rest, m, pts, tr, idx => do
    let (m', pts', tr', idx') ← compileOneConstraint bounds vars_map intervals_map c m pts tr idx
    compileConstraints bounds vars_map intervals_map rest m' pts' tr' idx'

/-- Everything `solve_request` has produced by the time it invokes the oracle. -/
structure CompileResult where
  model : CpModel
  bounds : BoundsMap
  vars_map : VarsMap
  intervals_map : IntervalsMap
  penalty_terms : List LinExpr
  tracked : List TrackedSoftConstraint
  hasObjective : Bool
deriving DecidableEq, Repr

/-- The compilation phase of `solve_request` (everything before
`solver.Solve(model)`). -/
def compileRequest (request : SolverRequest) : Except String CompileResult := do
  let bounds ← collect_bounds request.variables
  let (m1, vars_map, intervals_map) ← materializeVariables {} [] [] request.variables
  let (m2, penalty_terms, tracked) ←
    compileConstraints bounds vars_map intervals_map request.constraints m1 [] [] 0
  let (m3, hasObjective) ← build_objective m2 request.objective vars_map penalty_terms
  .ok ⟨m3, bounds, vars_map, intervals_map, penalty_terms, tracked, hasObjective⟩

/-! ### The oracle and the solution extractor -/

/-- Raw CP-SAT status codes (`cp_model.CpSolverStatus`). -/
def cpUNKNOWN : Int := 0
def cpMODEL_INVALID : Int := 1
def cpFEASIBLE : Int := 2
def cpINFEASIBLE : Int := 3
def cpOPTIMAL : Int := 4

/-- The parameters set on `CpSolver` before the call. -/
structure SolverParams where
  maxTimeInSeconds : Rat
  stopAfterFirstSolution : Bool
deriving DecidableEq, Repr

/-- The oracle's verdict: the raw status code, a value for every model
variable (indexed by handle), the statistics counters and the free-text
diagnostic.  Times and objective values are embedded as integers; only
their presence in the response matters to the properties proved here. -/
structure OracleResult where
  status : Int
  assignment : Nat → Int
  solutionInfo : String
  wallTimeMs : Int
  conflicts : Int
  branches : Int
  objectiveValue : Int
  bestObjectiveBound : Int

/-- The black-box engine: one synchronous bounded call per request. -/
abbrev Oracle := CpModel → SolverParams → OracleResult

/-- Embeds `status_map.get(int(status), "ERROR")` (lines 312-319). -/
def statusMap (s : Int) : String :=
  if s = cpOPTIMAL then "OPTIMAL"
  else if s = cpFEASIBLE then "FEASIBLE"
  else if s = cpINFEASIBLE then "INFEASIBLE"
  else if s = cpMODEL_INVALID then "ERROR"
  else if s = cpUNKNOWN then "TIMEOUT"
  else "ERROR"

/-- Embeds `sum(int(solver.value(vars_map[t.var])) * t.coeff for t in tracked.terms)`:
the recomputed left-hand side of a tracked soft constraint. -/
def evalTerms (terms : List Term) (vars_map : VarsMap) (assignment : Nat → Int) :
    Except String Int :=
  match terms with
  | [] => .ok 0
  | t :: rest => do
    let h ← varsMapGet vars_map t.var
    let s ← evalTerms rest vars_map assignment
    .ok (assignment h * t.coeff + s)

/-- The soft-violation reconstruction loop of `solve_request` (lines 337-350). -/
def computeSoftViolations (tracked : List TrackedSoftConstraint) (vars_map : VarsMap)
    (assignment : Nat → Int) : Except String (List SoftConstraintViolation) :=
  match tracked with
  | [] => .ok []
  | t :: rest =>
    let violation_amount := assignment t.violation_var
    if violation_amount ≤ 0 then
      computeSoftViolations rest vars_map assignment
    else do
      let actual_value ← evalTerms t.terms vars_map assignment
      let vs ← computeSoftViolations rest vars_map assignment
      .ok (⟨t.constraint_id, violation_amount, t.target_value, actual_value⟩ :: vs)

/-- The `CpSolver` parameters that `solve_request` configures from the
request's options before calling `Solve` (lines 304-308): the time limit, and
stop-after-first-solution exactly when `solutionLimit == 1`. -/
def requestParams (request : SolverRequest) : SolverParams :=
  let options := request.options.getD {}
  ⟨options.timeLimitSeconds, options.solutionLimit = some 1⟩

/-- The body of `solve_request`'s `try` block: compile, invoke the oracle,
extract.  Any raised exception is the `Except.error` case. -/
def solveRequestCore (request : SolverRequest) (oracle : Oracle) :
    Except String SolverResponse := do
  let cr ← compileRequest request
  let r := oracle cr.model (requestParams request)
  let status_text := statusMap r.status
  if r.status = cpOPTIMAL ∨ r.status = cpFEASIBLE then do
    let statistics :=
      [("solveTimeMs", r.wallTimeMs), ("conflicts", r.conflicts), ("branches", r.branches)] ++
        (if cr.hasObjective then
          [("objectiveValue", r.objectiveValue), ("bestObjectiveBound", r.bestObjectiveBound)]
        else [])
    let soft_violations ← computeSoftViolations cr.tracked cr.vars_map r.assignment
    .ok { status := status_text
          values := some (cr.vars_map.map (fun p => (p.1, r.assignment p.2)))
          statistics := some statistics
          softViolations := if soft_violations.isEmpty then none else some soft_violations }
  else
    .ok { status := status_text
          solutionInfo := if r.solutionInfo = "" then none else some r.solutionInfo }

/-- Embeds `solver.solve_request`: the `try/except Exception` boundary. -/
def solve_request (request : SolverRequest) (oracle : Oracle) : SolverResponse :=
  match solveRequestCore request oracle with
  | .ok response => response
  | .error exc => { status := "ERROR", error := some exc }

/-! ## Derived notions used in the statements -/

/-- The oracle contract of §6: a returned assignment gives every model
variable a value inside its declared domain. -/
def respectsBounds (m : CpModel) (assignment : Nat → Int) : Prop :=
  ∀ i, i < m.vars.length →
    (m.vars.getD i default).lb ≤ assignment i ∧ assignment i ≤ (m.vars.getD i default).ub

instance (m : CpModel) (assignment : Nat → Int) : Decidable (respectsBounds m assignment) :=
  inferInstanceAs (Decidable (∀ i, i < m.vars.length → _ ∧ _))

/-- Invariant carried through compilation: a tracked soft constraint's slack
variable exists in the model with lower bound 0 and upper bound equal to the
statically derived maximum violation of its constraint. -/
def trackedInv (bounds : BoundsMap) (m : CpModel) (t : TrackedSoftConstraint) : Prop :=
  t.violation_var < m.vars.length ∧
  (m.vars.getD t.violation_var default).lb = 0 ∧
  ∃ mn mx, expression_range t.terms bounds = .ok (mn, mx) ∧
    (m.vars.getD t.violation_var default).ub =
      (if t.comparator = "<=" then max 0 (mx - t.target_value)
       else max 0 (t.target_value - mn))

/-- The declared names of scalar (boolean or integer) variables, in
declaration order. -/
def scalarNames : List Variable → List String
  | [] => []
  | v :: rest =>
    if v.type = "bool" ∨ v.type = "int" then v.name :: scalarNames rest
    else scalarNames rest

/-- Key order of a Python dict built by repeated insertion: first occurrences
survive, in order, starting from the keys `ks` already present. -/
def dedupAppend (ks : List String) : List String → List String
  | [] => ks
  | n :: rest => if n ∈ ks then dedupAppend ks rest else dedupAppend (ks ++ [n]) rest

/-! ## Helper lemmas -/

theorem dictInsert_keys {α : Type} (k : String) (v : α) (d : List (String × α)) :
    (dictInsert k v d).map Prod.fst =
      if k ∈ d.map Prod.fst then d.map Prod.fst else d.map Prod.fst ++ [k] := by
  induction d with
  | nil => simp [dictInsert]
  | cons p rest ih =>
    obtain ⟨k', w⟩ := p
    by_cases hk : k' = k
    · subst hk
      simp [dictInsert]
    · simp only [dictInsert, if_neg hk, List.map_cons]
      rw [ih]
      by_cases hmem : k ∈ rest.map Prod.fst
      · simp [hmem, Ne.symm hk]
      · simp [hmem, Ne.symm hk]

theorem getD_append_left {α : Type} [Inhabited α] (l l' : List α) (i : Nat)
    (h : i < l.length) : (l ++ l').getD i default = l.getD i default := by
  simp [List.getD_eq_getElem?_getD, List.getElem?_append_left h]

/-- Extending the model's variable array preserves the tracked-constraint
invariant. -/
theorem trackedInv_mono (bounds : BoundsMap) (m m' : CpModel) (t : TrackedSoftConstraint)
    (hvars : ∃ ext, m'.vars = m.vars ++ ext) (h : trackedInv bounds m t) :
    trackedInv bounds m' t := by
  obtain ⟨ext, hext⟩ := hvars
  obtain ⟨hlt, hlb, mn, mx, hrange, hub⟩ := h
  refine ⟨?_, ?_, mn, mx, hrange, ?_⟩
  · rw [hext, List.length_append]; omega
  · rw [hext, getD_append_left _ _ _ hlt]; exact hlb
  · rw [hext, getD_append_left _ _ _ hlt]; exact hub

theorem expression_range_loop_spec (bounds : BoundsMap) (ts : List Term)
    (a b mn mx : Int) (h : expression_range_loop bounds a b ts = .ok (mn, mx)) :
    (mn, mx) = ts.foldl (fun acc t =>
      match dictGet? bounds t.var with
      | some vb =>
        if t.coeff ≥ 0 then (acc.1 + t.coeff * vb.lower, acc.2 + t.coeff * vb.upper)
        else (acc.1 + t.coeff * vb.upper, acc.2 + t.coeff * vb.lower)
      | none => acc) (a, b) := by
  induction ts generalizing a b with
  | nil => simp [expression_range_loop] at h; simp [h.1, h.2]
  | cons t rest ih =>
    simp only [expression_range_loop] at h
    cases hget : dictGet? bounds t.var with
    | none => rw [hget] at h; exact absurd h (by simp)
    | some vb =>
      rw [hget] at h
      have := ih _ _ h
      simp only [List.foldl_cons, hget]
      rw [this]
      by_cases hc : t.coeff ≥ 0 <;> simp [term_range, hc]

/-- Every variable mentioned by the terms resolves in the bounds dict when
`expression_range` succeeds. -/
theorem expression_range_loop_resolves (bounds : BoundsMap) (ts : List Term)
    (a b mn mx : Int) (h : expression_range_loop bounds a b ts = .ok (mn, mx)) :
    ∀ t ∈ ts, (dictGet? bounds t.var).isSome := by
  induction ts generalizing a b with
  | nil => simp
  | cons t rest ih =>
    simp only [expression_range_loop] at h
    cases hget : dictGet? bounds t.var with
    | none => rw [hget] at h; exact absurd h (by simp)
    | some vb =>
      rw [hget] at h
      intro u hu
      rcases List.mem_cons.mp hu with rfl | hu
      · simp [hget]
      · exact ih _ _ h u hu

/-- Characterisation of every record produced by the violation-reconstruction
loop: it stems from a tracked constraint whose slack value is strictly
positive, and carries exactly the fields the loop computes. -/
theorem mem_computeSoftViolations (tracked : List TrackedSoftConstraint) (vars_map : VarsMap)
    (assignment : Nat → Int) (vs : List SoftConstraintViolation)
    (h : computeSoftViolations tracked vars_map assignment = .ok vs) :
    ∀ v ∈ vs, ∃ t ∈ tracked, 0 < assignment t.violation_var ∧
      v.constraintId = t.constraint_id ∧
      v.violationAmount = assignment t.violation_var ∧
      v.targetValue = t.target_value ∧
      evalTerms t.terms vars_map assignment = .ok v.actualValue := by
  induction tracked generalizing vs with
  | nil =>
    simp only [computeSoftViolations] at h
    cases h; simp
  | cons t rest ih =>
    simp only [computeSoftViolations] at h
    by_cases hz : assignment t.violation_var ≤ 0
    · rw [if_pos hz] at h
      intro v hv
      obtain ⟨u, hu, rest'⟩ := ih vs h v hv
      exact ⟨u, List.mem_cons_of_mem _ hu, rest'⟩
    · rw [if_neg hz] at h
      cases hev : evalTerms t.terms vars_map assignment with
      | error e => rw [hev] at h; exact absurd h (by simp [Bind.bind, Except.bind])
      | ok a =>
        rw [hev] at h
        cases hrest : computeSoftViolations rest vars_map assignment with
        | error e => rw [hrest] at h; exact absurd h (by simp [Bind.bind, Except.bind])
        | ok vs' =>
          rw [hrest] at h
          simp only [Bind.bind, Except.bind, Except.ok.injEq] at h
          subst h
          intro v hv
          rcases List.mem_cons.mp hv with rfl | hv
          · exact ⟨t, List.mem_cons_self t rest, by omega, rfl, rfl, rfl, hev⟩
          · obtain ⟨u, hu, rest'⟩ := ih vs' hrest v hv
            exact ⟨u, List.mem_cons_of_mem _ hu, rest'⟩

/-- Completeness of the violation-reconstruction loop: every tracked
constraint with a strictly positive slack value yields a record. -/
theorem computeSoftViolations_complete (tracked : List TrackedSoftConstraint)
    (vars_map : VarsMap) (assignment : Nat → Int) (vs : List SoftConstraintViolation)
    (h : computeSoftViolations tracked vars_map assignment = .ok vs) :
    ∀ t ∈ tracked, 0 < assignment t.violation_var →
      ∃ v ∈ vs, v.constraintId = t.constraint_id ∧
        v.violationAmount = assignment t.violation_var ∧
        v.targetValue = t.target_value := by
  induction tracked generalizing vs with
  | nil => simp
  | cons t rest ih =>
    simp only [computeSoftViolations] at h
    by_cases hz : assignment t.violation_var ≤ 0
    · rw [if_pos hz] at h
      intro u hu hpos
      rcases List.mem_cons.mp hu with rfl | hu
      · omega
      · exact ih vs h u hu hpos
    · rw [if_neg hz] at h
      cases hev : evalTerms t.terms vars_map assignment with
      | error e => rw [hev] at h; exact absurd h (by simp [Bind.bind, Except.bind])
      | ok a =>
        rw [hev] at h
        cases hrest : computeSoftViolations rest vars_map assignment with
        | error e => rw [hrest] at h; exact absurd h (by simp [Bind.bind, Except.bind])
        | ok vs' =>
          rw [hrest] at h
          simp only [Bind.bind, Except.bind, Except.ok.injEq] at h
          subst h
          intro u hu hpos
          rcases List.mem_cons.mp hu with rfl | hu
          · exact ⟨_, List.mem_cons_self _ _, rfl, rfl, rfl⟩
          · obtain ⟨v, hv, hprops⟩ := ih vs' hrest u hu hpos
            exact ⟨v, List.mem_cons_of_mem _ hv, hprops⟩

theorem getD_append_self {α : Type} [Inhabited α] (l : List α) (x : α) :
    (l ++ [x]).getD l.length default = x := by
  simp [List.getD_eq_getElem?_getD, List.getElem?_append_right (Nat.le_refl _)]

/-- Full characterisation of the soft-linear handler for comparator `<=`. -/
theorem add_soft_le_eq (m : CpModel) (c : Constraint) (vars_map : VarsMap) (bounds : BoundsMap)
    (pts : List LinExpr) (tr : List TrackedSoftConstraint) (idx : Nat)
    (ts : List Term) (r p mn mx : Int) (e : LinExpr)
    (hts : c.terms = some ts) (hne : ts ≠ []) (hop : c.op = some "<=")
    (hr : c.rhs = some r) (hp : c.penalty = some p)
    (hrange : expression_range ts bounds = .ok (mn, mx))
    (he : exprOfTerms ts vars_map = .ok e) :
    add_soft_linear_constraint m c vars_map bounds pts tr idx =
      .ok ({ m with
              vars := m.vars ++ [⟨0, max 0 (mx - r), "violation_" ++ softConstraintId c idx⟩],
              constraints := m.constraints ++ [.le e ⟨[(m.vars.length, 1)], r⟩] },
           (if max 0 (mx - r) > 0 then pts ++ [LinExpr.varMul m.vars.length p] else pts),
           (if max 0 (mx - r) > 0 ∧ c.id ≠ none then
              tr ++ [⟨softConstraintId c idx, m.vars.length, r, "<=", ts⟩]
            else tr)) := by
  have hempty : ts.isEmpty = false := by
    cases ts with
    | nil => exact absurd rfl hne
    | cons a l => rfl
  simp only [add_soft_linear_constraint, hts, hop, hr, hp, hempty, Bool.false_eq_true,
    if_false, hrange, he, Bind.bind, Except.bind, CpModel.newIntVar, CpModel.addConstraint]
  by_cases hmv : max 0 (mx - r) > 0
  · by_cases hid : c.id ≠ none <;> simp [hmv, hid]
  · simp [hmv]

/-- Full characterisation of the soft-linear handler for comparator `>=`. -/
theorem add_soft_ge_eq (m : CpModel) (c : Constraint) (vars_map : VarsMap) (bounds : BoundsMap)
    (pts : List LinExpr) (tr : List TrackedSoftConstraint) (idx : Nat)
    (ts : List Term) (r p mn mx : Int) (e : LinExpr)
    (hts : c.terms = some ts) (hne : ts ≠ []) (hop : c.op = some ">=")
    (hr : c.rhs = some r) (hp : c.penalty = some p)
    (hrange : expression_range ts bounds = .ok (mn, mx))
    (he : exprOfTerms ts vars_map = .ok e) :
    add_soft_linear_constraint m c vars_map bounds pts tr idx =
      .ok ({ m with
              vars := m.vars ++ [⟨0, max 0 (r - mn), "violation_" ++ softConstraintId c idx⟩],
              constraints :=
                m.constraints ++ [.ge (e.add (LinExpr.ofVar m.vars.length)) (LinExpr.ofConst r)] },
           (if max 0 (r - mn) > 0 then pts ++ [LinExpr.varMul m.vars.length p] else pts),
           (if max 0 (r - mn) > 0 ∧ c.id ≠ none then
              tr ++ [⟨softConstraintId c idx, m.vars.length, r, ">=", ts⟩]
            else tr)) := by
  have hempty : ts.isEmpty = false := by
    cases ts with
    | nil => exact absurd rfl hne
    | cons a l => rfl
  simp only [add_soft_linear_constraint, hts, hop, hr, hp, hempty, Bool.false_eq_true,
    if_false, hrange, he, Bind.bind, Except.bind, CpModel.newIntVar, CpModel.addConstraint]
  by_cases hmv : max 0 (r - mn) > 0
  · by_cases hid : c.id ≠ none <;> simp [hmv, hid]
  · simp [hmv]

/-- A successful run of the soft-linear handler pins down the shape of the
constraint: all four payload fields present, a non-empty term list, a
supported comparator, and resolvable variables. -/
theorem add_soft_ok_shape (m : CpModel) (c : Constraint) (vars_map : VarsMap) (bounds : BoundsMap)
    (pts : List LinExpr) (tr : List TrackedSoftConstraint) (idx : Nat)
    (res : CpModel × List LinExpr × List TrackedSoftConstraint)
    (h : add_soft_linear_constraint m c vars_map bounds pts tr idx = .ok res) :
    ∃ ts op' r p mn mx e, c.terms = some ts ∧ ts ≠ [] ∧ c.op = some op' ∧
      (op' = "<=" ∨ op' = ">=") ∧ c.rhs = some r ∧ c.penalty = some p ∧
      expression_range ts bounds = .ok (mn, mx) ∧ exprOfTerms ts vars_map = .ok e := by
  unfold add_soft_linear_constraint at h
  split at h
  · rename_i ts op' r p heqt heqo heqr heqp
    split at h
    · exact absurd h (by simp)
    · rename_i hempty
      have hne : ts ≠ [] := by
        intro hnil; subst hnil; simp [List.isEmpty] at hempty
      cases hrange : expression_range ts bounds with
      | error msg => rw [hrange] at h; exact absurd h (by simp [Bind.bind, Except.bind])
      | ok range =>
        obtain ⟨mn, mx⟩ := range
        rw [hrange] at h
        cases he : exprOfTerms ts vars_map with
        | error msg => rw [he] at h; exact absurd h (by simp [Bind.bind, Except.bind])
        | ok e =>
          rw [he] at h
          simp only [Bind.bind, Except.bind] at h
          split at h
          · exact absurd h (by simp)
          · rename_i m2 mv hh heq
            split at heq
            · exact ⟨ts, "<=", _, _, mn, mx, e, heqt, hne, heqo, Or.inl rfl, heqr, heqp, hrange, he⟩
            · exact ⟨ts, ">=", _, _, mn, mx, e, heqt, hne, heqo, Or.inr rfl, heqr, heqp, hrange, he⟩
            · exact absurd heq (by simp)
  · exact absurd h (by simp)

theorem add_linear_constraint_vars (m : CpModel) (c : Constraint) (vm : VarsMap) (m' : CpModel)
    (h : add_linear_constraint m c vm = .ok m') : m'.vars = m.vars := by
  unfold add_linear_constraint at h
  split at h
  · split at h
    · exact absurd h (by simp)
    · cases he : exprOfTerms _ vm with
      | error msg => rw [he] at h; exact absurd h (by simp [Bind.bind, Except.bind])
      | ok e =>
        rw [he] at h
        simp only [Bind.bind, Except.bind] at h
        split at h
        · simp only [Except.ok.injEq] at h; subst h; rfl
        · simp only [Except.ok.injEq] at h; subst h; rfl
        · simp only [Except.ok.injEq] at h; subst h; rfl
        · exact absurd h (by simp)
  · exact absurd h (by simp)

theorem resolveHandles_bind_vars (m : CpModel) (vm : VarsMap) (vs : List String)
    (mk : List Nat → NativeConstraint) (m' : CpModel)
    (h : (do
        let lits ← resolveHandles vm vs
        Except.ok (m.addConstraint (mk lits)) : Except String CpModel) = .ok m') :
    m'.vars = m.vars := by
  cases hl : resolveHandles vm vs with
  | error msg => rw [hl] at h; exact absurd h (by simp [Bind.bind, Except.bind])
  | ok lits =>
    rw [hl] at h
    simp only [Bind.bind, Except.bind, Except.ok.injEq] at h
    subst h; rfl

theorem add_exactly_one_vars (m : CpModel) (c : Constraint) (vm : VarsMap) (m' : CpModel)
    (h : add_exactly_one m c vm = .ok m') : m'.vars = m.vars := by
  unfold add_exactly_one at h
  split at h
  · split at h
    · exact absurd h (by simp)
    · exact resolveHandles_bind_vars m vm _ _ m' h
  · exact absurd h (by simp)

theorem add_at_most_one_vars (m : CpModel) (c : Constraint) (vm : VarsMap) (m' : CpModel)
    (h : add_at_most_one m c vm = .ok m') : m'.vars = m.vars := by
  unfold add_at_most_one at h
  split at h
  · split at h
    · exact absurd h (by simp)
    · exact resolveHandles_bind_vars m vm _ _ m' h
  · exact absurd h (by simp)

theorem add_bool_or_vars (m : CpModel) (c : Constraint) (vm : VarsMap) (m' : CpModel)
    (h : add_bool_or m c vm = .ok m') : m'.vars = m.vars := by
  unfold add_bool_or at h
  split at h
  · split at h
    · exact absurd h (by simp)
    · exact resolveHandles_bind_vars m vm _ _ m' h
  · exact absurd h (by simp)

theorem add_bool_and_vars (m : CpModel) (c : Constraint) (vm : VarsMap) (m' : CpModel)
    (h : add_bool_and m c vm = .ok m') : m'.vars = m.vars := by
  unfold add_bool_and at h
  split at h
  · split at h
    · exact absurd h (by simp)
    · exact resolveHandles_bind_vars m vm _ _ m' h
  · exact absurd h (by simp)

theorem add_no_overlap_vars (m : CpModel) (c : Constraint) (im : IntervalsMap) (m' : CpModel)
    (h : add_no_overlap m c im = .ok m') : m'.vars = m.vars := by
  unfold add_no_overlap at h
  split at h
  · split at h
    · exact absurd h (by simp)
    · exact resolveHandles_bind_vars m im _ _ m' h
  · exact absurd h (by simp)

theorem add_implication_vars (m : CpModel) (c : Constraint) (vm : VarsMap) (m' : CpModel)
    (h : add_implication m c vm = .ok m') : m'.vars = m.vars := by
  unfold add_implication at h
  split at h
  · cases ha : varsMapGet vm _ with
    | error msg => rw [ha] at h; exact absurd h (by simp [Bind.bind, Except.bind])
    | ok x =>
      rw [ha] at h
      cases hb : varsMapGet vm _ with
      | error msg => rw [hb] at h; exact absurd h (by simp [Bind.bind, Except.bind])
      | ok y =>
        rw [hb] at h
        simp only [Bind.bind, Except.bind, Except.ok.injEq] at h
        subst h; rfl
  · exact absurd h (by simp)

/-- The slack variable appended by the soft-linear handler satisfies the
tracked-constraint invariant in any model whose variable array extends the
handler's input array by exactly that slack variable. -/
theorem trackedInv_appended (bounds : BoundsMap) (M : CpModel) (pre : List ModelVar)
    (cid name cmp : String) (ts : List Term) (r mn mx : Int)
    (hvars : M.vars = pre ++
      [⟨0, (if cmp = "<=" then max 0 (mx - r) else max 0 (r - mn)), name⟩])
    (hrange : expression_range ts bounds = .ok (mn, mx)) :
    trackedInv bounds M ⟨cid, pre.length, r, cmp, ts⟩ := by
  refine ⟨?_, ?_, mn, mx, hrange, ?_⟩
  · simp [hvars]
  · simp [hvars, getD_append_self]
  · simp only [hvars, getD_append_self]

theorem except_bind_ok {α β : Type} (act : Except String α) (f : α → Except String β) (b : β)
    (h : (act >>= f) = .ok b) : ∃ a, act = .ok a ∧ f a = .ok b := by
  cases act with
  | error e => exact absurd h (by simp [Bind.bind, Except.bind])
  | ok a => exact ⟨a, rfl, by simpa [Bind.bind, Except.bind] using h⟩

theorem inv_of_vars_eq (bounds : BoundsMap) (m m1 : CpModel)
    (tr : List TrackedSoftConstraint) (hv : m1.vars = m.vars) :
    (∃ ext, m1.vars = m.vars ++ ext) ∧ ∀ t ∈ tr, t ∈ tr ∨ trackedInv bounds m1 t :=
  ⟨⟨[], by simp [hv]⟩, fun _ ht => Or.inl ht⟩

/-- One pass of the constraint dispatcher only appends model variables, and
any tracked soft constraint it adds satisfies the invariant. -/
theorem compileOneConstraint_inv (bounds : BoundsMap) (vm : VarsMap) (im : IntervalsMap)
    (c : Constraint) (m : CpModel) (pts : List LinExpr) (tr : List TrackedSoftConstraint)
    (idx : Nat) (m' : CpModel) (pts' : List LinExpr) (tr' : List TrackedSoftConstraint)
    (idx' : Nat)
    (h : compileOneConstraint bounds vm im c m pts tr idx = .ok (m', pts', tr', idx')) :
    (∃ ext, m'.vars = m.vars ++ ext) ∧ ∀ t ∈ tr', t ∈ tr ∨ trackedInv bounds m' t := by
  unfold compileOneConstraint at h
  split_ifs at h
  case pos =>
    obtain ⟨m1, hm, hq⟩ := except_bind_ok _ _ _ h
    simp only [Except.ok.injEq, Prod.mk.injEq] at hq
    obtain ⟨rfl, rfl, rfl, rfl⟩ := hq
    exact inv_of_vars_eq bounds m m1 tr (add_linear_constraint_vars m c vm m1 hm)
  case pos =>
    obtain ⟨q0, hsoft, hq⟩ := except_bind_ok _ _ _ h
    obtain ⟨m1, pts1, tr1⟩ := q0
    simp only [Except.ok.injEq, Prod.mk.injEq] at hq
    obtain ⟨rfl, rfl, rfl, rfl⟩ := hq
    obtain ⟨ts, op', r, p, mn, mx, e, hts, hne, hop, hdisj, hr, hp, hrange, he⟩ :=
      add_soft_ok_shape _ _ _ _ _ _ _ _ hsoft
    rcases hdisj with rfl | rfl
    · rw [add_soft_le_eq m c vm bounds pts tr idx ts r p mn mx e hts hne hop hr hp hrange he]
        at hsoft
      simp only [Except.ok.injEq, Prod.mk.injEq] at hsoft
      obtain ⟨rfl, rfl, rfl⟩ := hsoft
      refine ⟨⟨_, rfl⟩, ?_⟩
      intro t ht
      by_cases hcond : max 0 (mx - r) > 0 ∧ c.id ≠ none
      · rw [if_pos hcond] at ht
        rcases List.mem_append.mp ht with hmem | hmem
        · exact Or.inl hmem
        · rcases List.mem_singleton.mp hmem with rfl
          exact Or.inr (trackedInv_appended bounds _ m.vars _
            ("violation_" ++ softConstraintId c idx) "<=" ts r mn mx (by simp) hrange)
      · rw [if_neg hcond] at ht
        exact Or.inl ht
    · rw [add_soft_ge_eq m c vm bounds pts tr idx ts r p mn mx e hts hne hop hr hp hrange he]
        at hsoft
      simp only [Except.ok.injEq, Prod.mk.injEq] at hsoft
      obtain ⟨rfl, rfl, rfl⟩ := hsoft
      refine ⟨⟨_, rfl⟩, ?_⟩
      intro t ht
      by_cases hcond : max 0 (r - mn) > 0 ∧ c.id ≠ none
      · rw [if_pos hcond] at ht
        rcases List.mem_append.mp ht with hmem | hmem
        · exact Or.inl hmem
        · rcases List.mem_singleton.mp hmem with rfl
          exact Or.inr (trackedInv_appended bounds _ m.vars _
            ("violation_" ++ softConstraintId c idx) ">=" ts r mn mx (by simp) hrange)
      · rw [if_neg hcond] at ht
        exact Or.inl ht
  case pos =>
    obtain ⟨m1, hm, hq⟩ := except_bind_ok _ _ _ h
    simp only [Except.ok.injEq, Prod.mk.injEq] at hq
    obtain ⟨rfl, rfl, rfl, rfl⟩ := hq
    exact inv_of_vars_eq bounds m m1 tr (add_exactly_one_vars m c vm m1 hm)
  case pos =>
    obtain ⟨m1, hm, hq⟩ := except_bind_ok _ _ _ h
    simp only [Except.ok.injEq, Prod.mk.injEq] at hq
    obtain ⟨rfl, rfl, rfl, rfl⟩ := hq
    exact inv_of_vars_eq bounds m m1 tr (add_at_most_one_vars m c vm m1 hm)
  case pos =>
    obtain ⟨m1, hm, hq⟩ := except_bind_ok _ _ _ h
    simp only [Except.ok.injEq, Prod.mk.injEq] at hq
    obtain ⟨rfl, rfl, rfl, rfl⟩ := hq
    exact inv_of_vars_eq bounds m m1 tr (add_implication_vars m c vm m1 hm)
  case pos =>
    obtain ⟨m1, hm, hq⟩ := except_bind_ok _ _ _ h
    simp only [Except.ok.injEq, Prod.mk.injEq] at hq
    obtain ⟨rfl, rfl, rfl, rfl⟩ := hq
    exact inv_of_vars_eq bounds m m1 tr (add_bool_or_vars m c vm m1 hm)
  case pos =>
    obtain ⟨m1, hm, hq⟩ := except_bind_ok _ _ _ h
    simp only [Except.ok.injEq, Prod.mk.injEq] at hq
    obtain ⟨rfl, rfl, rfl, rfl⟩ := hq
    exact inv_of_vars_eq bounds m m1 tr (add_bool_and_vars m c vm m1 hm)
  case pos =>
    obtain ⟨m1, hm, hq⟩ := except_bind_ok _ _ _ h
    simp only [Except.ok.injEq, Prod.mk.injEq] at hq
    obtain ⟨rfl, rfl, rfl, rfl⟩ := hq
    exact inv_of_vars_eq bounds m m1 tr (add_no_overlap_vars m c im m1 hm)

/-- The constraint loop only appends model variables, and on success every
tracked soft constraint satisfies the invariant in the final model. -/
theorem compileConstraints_inv (bounds : BoundsMap) (vm : VarsMap) (im : IntervalsMap)
    (cs : List Constraint) :
    ∀ (m : CpModel) (pts : List LinExpr) (tr : List TrackedSoftConstraint) (idx : Nat)
      (m' : CpModel) (pts' : List LinExpr) (tr' : List TrackedSoftConstraint),
      compileConstraints bounds vm im cs m pts tr idx = .ok (m', pts', tr') →
      (∀ t ∈ tr, trackedInv bounds m t) →
      (∃ ext, m'.vars = m.vars ++ ext) ∧ ∀ t ∈ tr', trackedInv bounds m' t := by
  induction cs with
  | nil =>
    intro m pts tr idx m' pts' tr' h hinv
    simp only [compileConstraints, Except.ok.injEq, Prod.mk.injEq] at h
    obtain ⟨rfl, rfl, rfl⟩ := h
    exact ⟨⟨[], by simp⟩, hinv⟩
  | cons c rest ih =>
    intro m pts tr idx m' pts' tr' h hinv
    simp only [compileConstraints] at h
    obtain ⟨q, hstep, h⟩ := except_bind_ok _ _ _ h
    obtain ⟨m1, pts1, tr1, idx1⟩ := q
    obtain ⟨⟨e1, he1⟩, hstep_inv⟩ :=
      compileOneConstraint_inv bounds vm im c m pts tr idx m1 pts1 tr1 idx1 hstep
    have hinv1 : ∀ t ∈ tr1, trackedInv bounds m1 t := by
      intro t ht
      rcases hstep_inv t ht with hmem | hnew
      · exact trackedInv_mono bounds m m1 t ⟨e1, he1⟩ (hinv t hmem)
      · exact hnew
    obtain ⟨⟨e2, he2⟩, hfin⟩ := ih m1 pts1 tr1 idx1 m' pts' tr' h hinv1
    exact ⟨⟨e1 ++ e2, by rw [he2, he1, List.append_assoc]⟩, hfin⟩

theorem build_objective_vars (m : CpModel) (obj : Option Objective) (vm : VarsMap)
    (pts : List LinExpr) (m' : CpModel) (b : Bool)
    (h : build_objective m obj vm pts = .ok (m', b)) : m'.vars = m.vars := by
  unfold build_objective at h
  split at h
  · rename_i obj
    obtain ⟨ots, hots, hq⟩ := except_bind_ok _ _ _ h
    cases hoe : sum_expr ots with
    | some oe =>
      cases hpe : sum_expr pts with
      | some pe =>
        rw [hoe, hpe] at hq
        by_cases hs : obj.sense = "maximize" <;>
          · simp only [hs, if_true, if_false, Except.ok.injEq, Prod.mk.injEq] at hq
            obtain ⟨rfl, -⟩ := hq
            rfl
      | none =>
        rw [hoe, hpe] at hq
        by_cases hs : obj.sense = "maximize" <;>
          · simp only [hs, if_true, if_false, Except.ok.injEq, Prod.mk.injEq] at hq
            obtain ⟨rfl, -⟩ := hq
            rfl
    | none =>
      cases hpe : sum_expr pts with
      | some pe =>
        rw [hoe, hpe] at hq
        by_cases hs : obj.sense = "maximize" <;>
          · simp only [hs, if_true, if_false, Except.ok.injEq, Prod.mk.injEq] at hq
            obtain ⟨rfl, -⟩ := hq
            rfl
      | none =>
        rw [hoe, hpe] at hq
        simp only [Except.ok.injEq, Prod.mk.injEq] at hq
        obtain ⟨rfl, -⟩ := hq
        rfl
  · cases hpe : sum_expr pts with
    | some pe =>
      simp only [hpe, Except.ok.injEq, Prod.mk.injEq] at h
      obtain ⟨rfl, -⟩ := h
      rfl
    | none =>
      simp only [hpe, Except.ok.injEq, Prod.mk.injEq] at h
      obtain ⟨rfl, -⟩ := h
      rfl

/-- After a successful compilation, every tracked soft constraint's slack
variable sits in the final model with bounds `[0, maxViolation]`, where
`maxViolation` is the statically derived maximum violation. -/
theorem compileRequest_tracked_inv (request : SolverRequest) (cr : CompileResult)
    (h : compileRequest request = .ok cr) :
    ∀ t ∈ cr.tracked, trackedInv cr.bounds cr.model t := by
  unfold compileRequest at h
  obtain ⟨bounds, hb, h⟩ := except_bind_ok _ _ _ h
  obtain ⟨trip, hmz, h⟩ := except_bind_ok _ _ _ h
  obtain ⟨m1, vm, im⟩ := trip
  obtain ⟨trip2, hcc, h⟩ := except_bind_ok _ _ _ h
  obtain ⟨m2, pts, tr⟩ := trip2
  obtain ⟨pair, hbo, h⟩ := except_bind_ok _ _ _ h
  obtain ⟨m3, hasObj⟩ := pair
  simp only [Except.ok.injEq] at h
  subst h
  obtain ⟨-, hfin⟩ :=
    compileConstraints_inv bounds vm im request.constraints m1 [] [] 0 m2 pts tr hcc
      (by intro t ht; exact absurd ht (List.not_mem_nil t))
  intro t ht
  exact trackedInv_mono bounds m2 m3 t ⟨[], by simp [build_objective_vars m2 _ vm pts m3 hasObj hbo]⟩
    (hfin t ht)

/-- Unfolding of `solve_request` on the successful path (raw status optimal or
feasible, violation reconstruction succeeded). -/
theorem solve_request_success (request : SolverRequest) (oracle : Oracle) (cr : CompileResult)
    (hcr : compileRequest request = .ok cr)
    (hst : (oracle cr.model (requestParams request)).status = cpOPTIMAL ∨
           (oracle cr.model (requestParams request)).status = cpFEASIBLE)
    (vs : List SoftConstraintViolation)
    (hvs : computeSoftViolations cr.tracked cr.vars_map
      (oracle cr.model (requestParams request)).assignment = .ok vs) :
    solve_request request oracle =
      { status := statusMap (oracle cr.model (requestParams request)).status
        values := some (cr.vars_map.map (fun p =>
          (p.1, (oracle cr.model (requestParams request)).assignment p.2)))
        statistics := some
          ([("solveTimeMs", (oracle cr.model (requestParams request)).wallTimeMs),
            ("conflicts", (oracle cr.model (requestParams request)).conflicts),
            ("branches", (oracle cr.model (requestParams request)).branches)] ++
            (if cr.hasObjective then
              [("objectiveValue", (oracle cr.model (requestParams request)).objectiveValue),
               ("bestObjectiveBound",
                 (oracle cr.model (requestParams request)).bestObjectiveBound)]
            else []))
        softViolations := if vs.isEmpty then none else some vs } := by
  unfold solve_request solveRequestCore
  rw [hcr]
  simp only [Bind.bind, Except.bind]
  rw [if_pos hst, hvs]

/-- Unfolding of `solve_request` on the non-success path: only status and
the optional solution-info diagnostic are populated. -/
theorem solve_request_nonsuccess (request : SolverRequest) (oracle : Oracle) (cr : CompileResult)
    (hcr : compileRequest request = .ok cr)
    (h1 : (oracle cr.model (requestParams request)).status ≠ cpOPTIMAL)
    (h2 : (oracle cr.model (requestParams request)).status ≠ cpFEASIBLE) :
    solve_request request oracle =
      { status := statusMap (oracle cr.model (requestParams request)).status
        values := none
        statistics := none
        error := none
        solutionInfo :=
          if (oracle cr.model (requestParams request)).solutionInfo = "" then none
          else some (oracle cr.model (requestParams request)).solutionInfo
        softViolations := none } := by
  unfold solve_request solveRequestCore
  rw [hcr]
  simp only [Bind.bind, Except.bind]
  rw [if_neg (by rintro (h | h); exact h1 h; exact h2 h)]

/-! ## Concrete oracles and requests used as witnesses -/

/-- A trivial oracle (status UNKNOWN, all-zero assignment). -/
def oracle0 : Oracle := fun _ _ =>
  { status := 0, assignment := fun _ => 0, solutionInfo := "", wallTimeMs := 0,
    conflicts := 0, branches := 0, objectiveValue := 0, bestObjectiveBound := 0 }

/-- An oracle that reports infeasibility with a presolve diagnostic. -/
def oracleInfeasible : Oracle := fun _ _ =>
  { status := 3, assignment := fun _ => 0, solutionInfo := "presolve", wallTimeMs := 0,
    conflicts := 0, branches := 0, objectiveValue := 0, bestObjectiveBound := 0 }

/-! ## The claims -/

/-- C9: every exception raised anywhere during compilation, solving or
extraction is caught once at the top level and becomes a response with status
ERROR carrying the exception's message, and nothing else: no value map, no
statistics, no solution-info and no violation list. -/
theorem error_caught_at_top_level (request : SolverRequest) (oracle : Oracle) (msg : String)
    (h : solveRequestCore request oracle = .error msg) :
    solve_request request oracle =
      { status := "ERROR", values := none, statistics := none, error := some msg,
        solutionInfo := none, softViolations := none } := by
  simp [solve_request, h]

/-- Witness for C9 at a concrete failing request: an unsupported constraint
type raises during compilation and surfaces as a bare ERROR response. -/
theorem error_caught_at_top_level_witness :
    solveRequestCore { «variables» := [], constraints := [{ type := "bad" }] } oracle0 =
      .error "Unsupported constraint type bad" ∧
    solve_request { «variables» := [], constraints := [{ type := "bad" }] } oracle0 =
      { status := "ERROR", values := none, statistics := none,
        error := some "Unsupported constraint type bad", solutionInfo := none,
        softViolations := none } :=
  ⟨rfl, error_caught_at_top_level _ _ _ rfl⟩

/-- C6: the oracle status is mapped through the fixed table
(optimal→OPTIMAL, feasible→FEASIBLE, infeasible→INFEASIBLE,
model-invalid→ERROR, unknown→TIMEOUT, anything else→ERROR), and every
non-success status yields a response holding only the status and the
oracle's free-text solution-info, with no value map. -/
theorem status_mapping_and_nonsuccess_response :
    (statusMap cpOPTIMAL = "OPTIMAL" ∧ statusMap cpFEASIBLE = "FEASIBLE" ∧
     statusMap cpINFEASIBLE = "INFEASIBLE" ∧ statusMap cpMODEL_INVALID = "ERROR" ∧
     statusMap cpUNKNOWN = "TIMEOUT" ∧
     ∀ s : Int, s ≠ cpOPTIMAL → s ≠ cpFEASIBLE → s ≠ cpINFEASIBLE → s ≠ cpMODEL_INVALID →
       s ≠ cpUNKNOWN → statusMap s = "ERROR") ∧
    ∀ (request : SolverRequest) (oracle : Oracle) (cr : CompileResult),
      compileRequest request = .ok cr →
      (oracle cr.model (requestParams request)).status ≠ cpOPTIMAL →
      (oracle cr.model (requestParams request)).status ≠ cpFEASIBLE →
      solve_request request oracle =
        { status := statusMap (oracle cr.model (requestParams request)).status
          values := none
          statistics := none
          error := none
          solutionInfo :=
            if (oracle cr.model (requestParams request)).solutionInfo = "" then none
            else some (oracle cr.model (requestParams request)).solutionInfo
          softViolations := none } := by
  refine ⟨⟨rfl, rfl, rfl, rfl, rfl, ?_⟩, ?_⟩
  · intro s h4 h2 h3 h1 h0
    simp only [statusMap, if_neg h4, if_neg h2, if_neg h3, if_neg h1, if_neg h0]
  · intro request oracle cr hcr h1 h2
    exact solve_request_nonsuccess request oracle cr hcr h1 h2

/-- Witness for C6: an out-of-table raw code maps to ERROR, and a concrete
infeasible verdict produces the bare status/solution-info response. -/
theorem status_mapping_witness :
    statusMap 7 = "ERROR" ∧
    solve_request { «variables» := [], constraints := [] } oracleInfeasible =
      { status := "INFEASIBLE", values := none, statistics := none, error := none,
        solutionInfo := some "presolve", softViolations := none } :=
  ⟨status_mapping_and_nonsuccess_response.1.2.2.2.2.2 7 (by decide) (by decide) (by decide)
      (by decide) (by decide),
   by
    have h := status_mapping_and_nonsuccess_response.2 { «variables» := [], constraints := [] }
      oracleInfeasible ⟨{}, [], [], [], [], [], false⟩ rfl (by decide) (by decide)
    simpa using h⟩

/-- C2: objective assembly.  With both a user objective and penalties the
optimized expression is `userExpr + penaltySum` under minimize and
`userExpr - penaltySum` under maximize; a lone user objective is forwarded
unchanged; lone penalties are minimized as `penaltySum`; with neither, no
optimization direction is sent. -/
theorem objective_assembly (m : CpModel) (vars_map : VarsMap) :
    (∀ (obj : Objective) (pts : List LinExpr) (ots : List LinExpr) (oe pe : LinExpr),
      objective_term_exprs obj.terms vars_map = .ok ots →
      sum_expr ots = some oe → sum_expr pts = some pe →
      (obj.sense = "minimize" →
        build_objective m (some obj) vars_map pts =
          .ok ({ m with objective := some ("minimize", oe.add pe) }, true)) ∧
      (obj.sense = "maximize" →
        build_objective m (some obj) vars_map pts =
          .ok ({ m with objective := some ("maximize", oe.sub pe) }, true))) ∧
    (∀ (obj : Objective) (ots : List LinExpr) (oe : LinExpr),
      objective_term_exprs obj.terms vars_map = .ok ots →
      sum_expr ots = some oe →
      (obj.sense = "minimize" ∨ obj.sense = "maximize") →
      build_objective m (some obj) vars_map [] =
        .ok ({ m with objective := some (obj.sense, oe) }, true)) ∧
    (∀ (pts : List LinExpr) (pe : LinExpr),
      sum_expr pts = some pe →
      build_objective m none vars_map pts =
        .ok ({ m with objective := some ("minimize", pe) }, true)) ∧
    build_objective m none vars_map [] = .ok (m, false) := by
  refine ⟨?_, ?_, ?_, ?_⟩
  · intro obj pts ots oe pe hot hoe hpe
    constructor <;> intro hs <;>
      simp [build_objective, hot, hoe, hpe, hs, Bind.bind, Except.bind]
  · intro obj ots oe hot hoe hdisj
    rcases hdisj with hs | hs <;>
      simp [build_objective, hot, hoe, hs, Bind.bind, Except.bind,
        (show sum_expr ([] : List LinExpr) = none from rfl)]
  · intro pts pe hpe
    simp [build_objective, hpe]
  · rfl

/-- Witness for C2: each of the four assembly cases evaluated at concrete
inputs through the theorem. -/
theorem objective_assembly_witness :
    build_objective {} (some ⟨"minimize", [⟨"x", 2⟩]⟩) [("x", 0)] [LinExpr.varMul 1 5] =
      .ok ({ objective := some ("minimize", (LinExpr.varMul 0 2).add (LinExpr.varMul 1 5)) },
        true) ∧
    build_objective {} (some ⟨"maximize", [⟨"x", 2⟩]⟩) [("x", 0)] [LinExpr.varMul 1 5] =
      .ok ({ objective := some ("maximize", (LinExpr.varMul 0 2).sub (LinExpr.varMul 1 5)) },
        true) ∧
    build_objective {} (some ⟨"maximize", [⟨"x", 2⟩]⟩) [("x", 0)] [] =
      .ok ({ objective := some ("maximize", LinExpr.varMul 0 2) }, true) ∧
    build_objective {} none [("x", 0)] [LinExpr.varMul 1 5] =
      .ok ({ objective := some ("minimize", LinExpr.varMul 1 5) }, true) ∧
    build_objective {} none [("x", 0)] [] = .ok ({}, false) :=
  ⟨((objective_assembly {} [("x", 0)]).1 ⟨"minimize", [⟨"x", 2⟩]⟩ [LinExpr.varMul 1 5] _ _ _
      rfl rfl rfl).1 rfl,
   ((objective_assembly {} [("x", 0)]).1 ⟨"maximize", [⟨"x", 2⟩]⟩ [LinExpr.varMul 1 5] _ _ _
      rfl rfl rfl).2 rfl,
   (objective_assembly {} [("x", 0)]).2.1 ⟨"maximize", [⟨"x", 2⟩]⟩ _ _ rfl rfl (Or.inr rfl),
   (objective_assembly {} [("x", 0)]).2.2.1 _ _ rfl,
   (objective_assembly {} [("x", 0)]).2.2.2⟩

/-- C1: the statically derived range `[minExpr, maxExpr]` of a soft-linear
constraint is the fold over its terms of `(coeff*lower, coeff*upper)` for a
non-negative coefficient and the swapped pair otherwise; for comparator `<=`
a slack variable bounded `[0, max 0 (maxExpr - rhs)]` is created and the
asserted constraint is `expr <= rhs + v`; for `>=` the slack is bounded
`[0, max 0 (rhs - minExpr)]` and the asserted constraint is
`expr + v >= rhs`. -/
theorem soft_linear_range_and_relaxation
    (m : CpModel) (c : Constraint) (vars_map : VarsMap) (bounds : BoundsMap)
    (pts : List LinExpr) (tr : List TrackedSoftConstraint) (idx : Nat)
    (ts : List Term) (r p mn mx : Int) (e : LinExpr)
    (hts : c.terms = some ts) (hne : ts ≠ [])
    (hr : c.rhs = some r) (hp : c.penalty = some p)
    (hrange : expression_range ts bounds = .ok (mn, mx))
    (he : exprOfTerms ts vars_map = .ok e) :
    ((mn, mx) = ts.foldl (fun acc t =>
        match dictGet? bounds t.var with
        | some vb =>
          if t.coeff ≥ 0 then (acc.1 + t.coeff * vb.lower, acc.2 + t.coeff * vb.upper)
          else (acc.1 + t.coeff * vb.upper, acc.2 + t.coeff * vb.lower)
        | none => acc) ((0 : Int), (0 : Int)) ∧
      ∀ t ∈ ts, (dictGet? bounds t.var).isSome) ∧
    (c.op = some "<=" →
      ∃ pts' tr',
        add_soft_linear_constraint m c vars_map bounds pts tr idx =
          .ok ({ m with
                  vars := m.vars ++
                    [⟨0, max 0 (mx - r), "violation_" ++ softConstraintId c idx⟩],
                  constraints := m.constraints ++ [.le e ⟨[(m.vars.length, 1)], r⟩] },
               pts', tr')) ∧
    (c.op = some ">=" →
      ∃ pts' tr',
        add_soft_linear_constraint m c vars_map bounds pts tr idx =
          .ok ({ m with
                  vars := m.vars ++
                    [⟨0, max 0 (r - mn), "violation_" ++ softConstraintId c idx⟩],
                  constraints := m.constraints ++
                    [.ge (e.add (LinExpr.ofVar m.vars.length)) (LinExpr.ofConst r)] },
               pts', tr')) := by
  refine ⟨⟨expression_range_loop_spec bounds ts 0 0 mn mx hrange,
           expression_range_loop_resolves bounds ts 0 0 mn mx hrange⟩, ?_, ?_⟩
  · intro hop
    exact ⟨_, _,
      add_soft_le_eq m c vars_map bounds pts tr idx ts r p mn mx e hts hne hop hr hp hrange he⟩
  · intro hop
    exact ⟨_, _,
      add_soft_ge_eq m c vars_map bounds pts tr idx ts r p mn mx e hts hne hop hr hp hrange he⟩

/-- A one-variable model, bounds map and variable map shared by the
handler-level witnesses. -/
def mW : CpModel := { vars := [⟨0, 1, "x"⟩] }

def bW : BoundsMap := [("x", ⟨0, 1⟩)]

def vmW : VarsMap := [("x", 0)]

/-- Witness constraint `soft_linear x <= 0, penalty 15` (no id). -/
def softLeC : Constraint :=
  { type := "soft_linear", terms := some [⟨"x", 1⟩], op := some "<=", rhs := some 0,
    penalty := some 15 }

/-- Witness constraint `soft_linear x >= 1, penalty 5, id "cov"`. -/
def softGeC : Constraint :=
  { type := "soft_linear", terms := some [⟨"x", 1⟩], op := some ">=", rhs := some 1,
    penalty := some 5, id := some "cov" }

/-- Witness for C1: the range fold and both relaxations evaluated at concrete
soft constraints over one boolean variable. -/
theorem soft_linear_range_and_relaxation_witness :
    (((0 : Int), (1 : Int)) = [(⟨"x", 1⟩ : Term)].foldl (fun acc t =>
        match dictGet? bW t.var with
        | some vb =>
          if t.coeff ≥ 0 then (acc.1 + t.coeff * vb.lower, acc.2 + t.coeff * vb.upper)
          else (acc.1 + t.coeff * vb.upper, acc.2 + t.coeff * vb.lower)
        | none => acc) ((0 : Int), (0 : Int)) ∧
      ∀ t ∈ [(⟨"x", 1⟩ : Term)], (dictGet? bW t.var).isSome) ∧
    (∃ pts' tr',
      add_soft_linear_constraint mW softLeC vmW bW [] [] 0 =
        .ok ({ mW with
                vars := mW.vars ++
                  [⟨0, max 0 (1 - 0), "violation_" ++ softConstraintId softLeC 0⟩],
                constraints := mW.constraints ++
                  [.le ⟨[(0, 1)], 0⟩ ⟨[(mW.vars.length, 1)], 0⟩] },
             pts', tr')) ∧
    (∃ pts' tr',
      add_soft_linear_constraint mW softGeC vmW bW [] [] 0 =
        .ok ({ mW with
                vars := mW.vars ++
                  [⟨0, max 0 (1 - 0), "violation_" ++ softConstraintId softGeC 0⟩],
                constraints := mW.constraints ++
                  [.ge (LinExpr.add ⟨[(0, 1)], 0⟩ (LinExpr.ofVar mW.vars.length))
                    (LinExpr.ofConst 1)] },
             pts', tr')) :=
  ⟨(soft_linear_range_and_relaxation mW softLeC vmW bW [] [] 0 [⟨"x", 1⟩] 0 15 0 1
      ⟨[(0, 1)], 0⟩ rfl (by simp) rfl rfl rfl rfl).1,
   (soft_linear_range_and_relaxation mW softLeC vmW bW [] [] 0 [⟨"x", 1⟩] 0 15 0 1
      ⟨[(0, 1)], 0⟩ rfl (by simp) rfl rfl rfl rfl).2.1 rfl,
   (soft_linear_range_and_relaxation mW softGeC vmW bW [] [] 0 [⟨"x", 1⟩] 1 5 0 1
      ⟨[(0, 1)], 0⟩ rfl (by simp) rfl rfl rfl rfl).2.2 rfl⟩

/-- C5: a soft-linear constraint with statically derived maximum violation 0
appends no penalty term and is not tracked (so it can never surface in the
violation list, which is reconstructed from tracked constraints only);
otherwise the penalty term `violation * penalty` is appended and the
constraint is tracked exactly when the caller supplied an explicit id. -/
theorem soft_linear_zero_max_violation
    (m : CpModel) (c : Constraint) (vars_map : VarsMap) (bounds : BoundsMap)
    (pts : List LinExpr) (tr : List TrackedSoftConstraint) (idx : Nat)
    (ts : List Term) (op' : String) (r p mn mx : Int) (e : LinExpr)
    (hts : c.terms = some ts) (hne : ts ≠ []) (hop : c.op = some op')
    (hople : op' = "<=" ∨ op' = ">=")
    (hr : c.rhs = some r) (hp : c.penalty = some p)
    (hrange : expression_range ts bounds = .ok (mn, mx))
    (he : exprOfTerms ts vars_map = .ok e) :
    ((if op' = "<=" then max 0 (mx - r) else max 0 (r - mn)) = 0 →
      ∃ m', add_soft_linear_constraint m c vars_map bounds pts tr idx = .ok (m', pts, tr)) ∧
    ((if op' = "<=" then max 0 (mx - r) else max 0 (r - mn)) > 0 → c.id = none →
      ∃ m', add_soft_linear_constraint m c vars_map bounds pts tr idx =
        .ok (m', pts ++ [LinExpr.varMul m.vars.length p], tr)) ∧
    ((if op' = "<=" then max 0 (mx - r) else max 0 (r - mn)) > 0 → ∀ s, c.id = some s →
      ∃ m', add_soft_linear_constraint m c vars_map bounds pts tr idx =
        .ok (m', pts ++ [LinExpr.varMul m.vars.length p],
             tr ++ [⟨softConstraintId c idx, m.vars.length, r, op', ts⟩])) := by
  rcases hople with rfl | rfl
  · have heq :=
      add_soft_le_eq m c vars_map bounds pts tr idx ts r p mn mx e hts hne hop hr hp hrange he
    refine ⟨?_, ?_, ?_⟩
    · intro h0
      rw [if_pos rfl] at h0
      have hcond : ¬ (max 0 (mx - r) > 0) := by omega
      rw [if_neg hcond, if_neg (fun hc => hcond hc.1)] at heq
      exact ⟨_, heq⟩
    · intro hpos hid
      rw [if_pos rfl] at hpos
      rw [if_pos hpos, if_neg (fun hc => hc.2 hid)] at heq
      exact ⟨_, heq⟩
    · intro hpos s hid
      rw [if_pos rfl] at hpos
      rw [if_pos hpos, if_pos ⟨hpos, by simp [hid]⟩] at heq
      exact ⟨_, heq⟩
  · have heq :=
      add_soft_ge_eq m c vars_map bounds pts tr idx ts r p mn mx e hts hne hop hr hp hrange he
    refine ⟨?_, ?_, ?_⟩
    · intro h0
      rw [if_neg (by decide)] at h0
      have hcond : ¬ (max 0 (r - mn) > 0) := by omega
      rw [if_neg hcond, if_neg (fun hc => hcond hc.1)] at heq
      exact ⟨_, heq⟩
    · intro hpos hid
      rw [if_neg (by decide)] at hpos
      rw [if_pos hpos, if_neg (fun hc => hc.2 hid)] at heq
      exact ⟨_, heq⟩
    · intro hpos s hid
      rw [if_neg (by decide)] at hpos
      rw [if_pos hpos, if_pos ⟨hpos, by simp [hid]⟩] at heq
      exact ⟨_, heq⟩

/-- Witness constraint `soft_linear x <= 1, penalty 7, id "slack"`: over a boolean variable the
maximum violation is `max 0 (1 - 1) = 0`. -/
def softZeroC : Constraint :=
  { type := "soft_linear", terms := some [⟨"x", 1⟩], op := some "<=", rhs := some 1,
    penalty := some 7, id := some "slack" }

/-- Witness for C5: the zero-max-violation case appends nothing, the positive
case without id appends only the penalty term, and the positive case with an
id appends the penalty term and the tracked record. -/
theorem soft_linear_zero_max_violation_witness :
    (∃ m', add_soft_linear_constraint mW softZeroC vmW bW [] [] 0 = .ok (m', [], [])) ∧
    (∃ m', add_soft_linear_constraint mW softLeC vmW bW [] [] 0 =
      .ok (m', [] ++ [LinExpr.varMul mW.vars.length 15], [])) ∧
    (∃ m', add_soft_linear_constraint mW softGeC vmW bW [] [] 0 =
      .ok (m', [] ++ [LinExpr.varMul mW.vars.length 5],
           [] ++ [⟨softConstraintId softGeC 0, mW.vars.length, 1, ">=", [⟨"x", 1⟩]⟩])) :=
  ⟨(soft_linear_zero_max_violation mW softZeroC vmW bW [] [] 0 [⟨"x", 1⟩] "<=" 1 7 0 1
      ⟨[(0, 1)], 0⟩ rfl (by simp) rfl (Or.inl rfl) rfl rfl rfl rfl).1 (by decide),
   (soft_linear_zero_max_violation mW softLeC vmW bW [] [] 0 [⟨"x", 1⟩] "<=" 0 15 0 1
      ⟨[(0, 1)], 0⟩ rfl (by simp) rfl (Or.inl rfl) rfl rfl rfl rfl).2.1 (by decide) rfl,
   (soft_linear_zero_max_violation mW softGeC vmW bW [] [] 0 [⟨"x", 1⟩] ">=" 1 5 0 1
      ⟨[(0, 1)], 0⟩ rfl (by simp) rfl (Or.inr rfl) rfl rfl rfl rfl).2.2 (by decide) "cov" rfl⟩

/-- Unfolding of `solve_request` when the pipeline raises. -/
theorem solve_request_error (request : SolverRequest) (oracle : Oracle) (msg : String)
    (h : solveRequestCore request oracle = .error msg) :
    solve_request request oracle = { status := "ERROR", error := some msg } := by
  simp [solve_request, h]

/-- If the status is successful but violation reconstruction raises, the whole
pipeline raises with that message. -/
theorem solveRequestCore_csv_error (request : SolverRequest) (oracle : Oracle)
    (cr : CompileResult) (msg : String)
    (hcr : compileRequest request = .ok cr)
    (hst : (oracle cr.model (requestParams request)).status = cpOPTIMAL ∨
           (oracle cr.model (requestParams request)).status = cpFEASIBLE)
    (hcsv : computeSoftViolations cr.tracked cr.vars_map
      (oracle cr.model (requestParams request)).assignment = .error msg) :
    solveRequestCore request oracle = .error msg := by
  unfold solveRequestCore
  rw [hcr]
  simp only [Bind.bind, Except.bind]
  rw [if_pos hst, hcsv]

/-- A violation list in the response is exactly a successful run of the
reconstruction loop. -/
theorem solve_request_softViolations (request : SolverRequest) (oracle : Oracle)
    (cr : CompileResult) (hcr : compileRequest request = .ok cr)
    (vs : List SoftConstraintViolation)
    (hvs : (solve_request request oracle).softViolations = some vs) :
    computeSoftViolations cr.tracked cr.vars_map
      (oracle cr.model (requestParams request)).assignment = .ok vs := by
  by_cases hst : (oracle cr.model (requestParams request)).status = cpOPTIMAL ∨
      (oracle cr.model (requestParams request)).status = cpFEASIBLE
  · cases hcsv : computeSoftViolations cr.tracked cr.vars_map
        (oracle cr.model (requestParams request)).assignment with
    | error msg =>
      rw [solve_request_error request oracle msg
        (solveRequestCore_csv_error request oracle cr msg hcr hst hcsv)] at hvs
      exact absurd hvs (by simp)
    | ok vs' =>
      rw [solve_request_success request oracle cr hcr hst vs' hcsv] at hvs
      by_cases hemp : vs'.isEmpty
      · rw [if_pos hemp] at hvs
        exact absurd hvs (by simp)
      · rw [if_neg hemp] at hvs
        simp only [Option.some.injEq] at hvs
        subst hvs
        rfl
  · rw [solve_request_nonsuccess request oracle cr hcr
      (fun h => hst (Or.inl h)) (fun h => hst (Or.inr h))] at hvs
    exact absurd hvs (by simp)

/-- C3: for every soft-linear constraint and any bounds-respecting assignment
returned by the oracle, the violation amount reported in a soft-violation
record never exceeds the statically derived maximum violation of its
constraint (`max 0 (maxExpr - rhs)` for `<=`, `max 0 (rhs - minExpr)` for
`>=`). -/
theorem soft_violation_within_static_bound
    (request : SolverRequest) (oracle : Oracle) (cr : CompileResult)
    (hcr : compileRequest request = .ok cr)
    (hb : respectsBounds cr.model (oracle cr.model (requestParams request)).assignment)
    (vs : List SoftConstraintViolation)
    (hvs : (solve_request request oracle).softViolations = some vs) :
    ∀ v ∈ vs, ∃ t ∈ cr.tracked, ∃ mn mx,
      expression_range t.terms cr.bounds = .ok (mn, mx) ∧
      v.violationAmount ≤ (if t.comparator = "<=" then max 0 (mx - t.target_value)
                           else max 0 (t.target_value - mn)) := by
  have hcsv := solve_request_softViolations request oracle cr hcr vs hvs
  have hinv := compileRequest_tracked_inv request cr hcr
  intro v hv
  obtain ⟨t, ht, hpos, hcid, hamt, htv, hev⟩ :=
    mem_computeSoftViolations cr.tracked cr.vars_map _ vs hcsv v hv
  obtain ⟨hlt, hlb, mn, mx, hrange, hub⟩ := hinv t ht
  refine ⟨t, ht, mn, mx, hrange, ?_⟩
  rw [hamt, ← hub]
  exact (hb t.violation_var hlt).2

/-- The request, oracle and compilation result used by the C3 witness: one
boolean `x` and the soft constraint `x >= 1` (penalty 5, id `cov`); the
oracle answers OPTIMAL with `x = 0` and slack 1. -/
def w3req : SolverRequest :=
  { «variables» := [{ type := "bool", name := "x" }], constraints := [softGeC] }

def w3oracle : Oracle := fun _ _ =>
  { status := 4, assignment := fun h => if h = 0 then 0 else 1, solutionInfo := "",
    wallTimeMs := 1, conflicts := 0, branches := 0, objectiveValue := 5,
    bestObjectiveBound := 5 }

def w3cr : CompileResult :=
  { model := { vars := [⟨0, 1, "x"⟩, ⟨0, 1, "violation_cov"⟩],
               constraints := [.ge ⟨[(0, 1), (1, 1)], 0⟩ ⟨[], 1⟩],
               objective := some ("minimize", ⟨[(1, 5)], 0⟩) },
    bounds := [("x", ⟨0, 1⟩)], vars_map := [("x", 0)], intervals_map := [],
    penalty_terms := [⟨[(1, 5)], 0⟩],
    tracked := [⟨"cov", 1, 1, ">=", [⟨"x", 1⟩]⟩], hasObjective := true }

/-- Witness for C3 at a concrete violated soft constraint. -/
theorem soft_violation_within_static_bound_witness :
    compileRequest w3req = .ok w3cr ∧
    respectsBounds w3cr.model (w3oracle w3cr.model (requestParams w3req)).assignment ∧
    (solve_request w3req w3oracle).softViolations = some [⟨"cov", 1, 1, 0⟩] ∧
    ∀ v ∈ [(⟨"cov", 1, 1, 0⟩ : SoftConstraintViolation)], ∃ t ∈ w3cr.tracked, ∃ mn mx,
      expression_range t.terms w3cr.bounds = .ok (mn, mx) ∧
      v.violationAmount ≤ (if t.comparator = "<=" then max 0 (mx - t.target_value)
                           else max 0 (t.target_value - mn)) :=
  ⟨rfl, by decide, rfl,
   soft_violation_within_static_bound w3req w3oracle w3cr rfl (by decide) _ rfl⟩

/-- A soft constraint supplied with the empty string as id. -/
def cex4req : SolverRequest :=
  { «variables» := [{ type := "bool", name := "x" }],
    constraints := [{ type := "soft_linear", terms := some [⟨"x", 1⟩], op := some "<=",
                      rhs := some 0, penalty := some 15, id := some "" }] }

/-- An oracle answering OPTIMAL with every variable set to 1. -/
def oracleAllOne : Oracle := fun _ _ =>
  { status := 4, assignment := fun _ => 1, solutionInfo := "", wallTimeMs := 0,
    conflicts := 0, branches := 0, objectiveValue := 15, bestObjectiveBound := 15 }

/-- C4 counterexample: a tracked soft constraint whose caller supplied the
explicit id `""` is reported under the synthetic id `soft_0` (Python's
`constraint.id or f"soft_..."` treats the empty string as falsy), so the
emitted record does not contain the caller-supplied id. -/
theorem violation_record_id_cex :
    cex4req.constraints.map Constraint.id = [some ""] ∧
    (solve_request cex4req oracleAllOne).softViolations = some [⟨"soft_0", 1, 0, 1⟩] ∧
    ("soft_0" : String) ≠ "" :=
  ⟨rfl, rfl, by decide⟩

/-- C4 amended: on a successful solve a violation record is emitted for a
tracked soft constraint iff its slack value is strictly positive; the record
carries the tracked id (the caller-supplied id when it is non-empty, the
synthetic `soft_<n>` when the caller supplied the empty string), the slack
value as violationAmount, the constraint's rhs as targetValue and the
left-hand side recomputed from the original terms as actualValue; an empty
record list collapses to an absent violation list. -/
theorem violation_records_amended
    (request : SolverRequest) (oracle : Oracle) (cr : CompileResult)
    (hcr : compileRequest request = .ok cr)
    (hst : (oracle cr.model (requestParams request)).status = cpOPTIMAL ∨
           (oracle cr.model (requestParams request)).status = cpFEASIBLE)
    (vs : List SoftConstraintViolation)
    (hvs : computeSoftViolations cr.tracked cr.vars_map
      (oracle cr.model (requestParams request)).assignment = .ok vs) :
    ((solve_request request oracle).softViolations =
      (if vs.isEmpty then none else some vs)) ∧
    (∀ v ∈ vs, ∃ t ∈ cr.tracked,
      0 < (oracle cr.model (requestParams request)).assignment t.violation_var ∧
      v.constraintId = t.constraint_id ∧
      v.violationAmount = (oracle cr.model (requestParams request)).assignment t.violation_var ∧
      v.targetValue = t.target_value ∧
      evalTerms t.terms cr.vars_map (oracle cr.model (requestParams request)).assignment =
        .ok v.actualValue) ∧
    (∀ t ∈ cr.tracked,
      0 < (oracle cr.model (requestParams request)).assignment t.violation_var →
      ∃ v ∈ vs, v.constraintId = t.constraint_id ∧
        v.violationAmount = (oracle cr.model (requestParams request)).assignment t.violation_var ∧
        v.targetValue = t.target_value) ∧
    (∀ (c : Constraint) (str : String) (n : Nat), c.id = some str → str ≠ "" →
      softConstraintId c n = str) := by
  refine ⟨?_, mem_computeSoftViolations _ _ _ _ hvs,
    computeSoftViolations_complete _ _ _ _ hvs, ?_⟩
  · rw [solve_request_success request oracle cr hcr hst vs hvs]
  · intro c str n hcs hstr
    simp [softConstraintId, hcs, hstr]

def w4req : SolverRequest :=
  { «variables» := [{ type := "bool", name := "x" }],
    constraints := [
      { type := "soft_linear", terms := some [⟨"x", 1⟩], op := some "<=", rhs := some 0,
        penalty := some 3, id := some "cap" },
      { type := "soft_linear", terms := some [⟨"x", 1⟩], op := some ">=", rhs := some 1,
        penalty := some 2, id := some "floor" }] }

/-- Oracle for the C4 witness: `x = 1`, the `cap` slack resolves to 1 and the
`floor` slack to 0. -/
def w4oracle : Oracle := fun _ _ =>
  { status := 4, assignment := fun h => if h = 2 then 0 else 1, solutionInfo := "",
    wallTimeMs := 0, conflicts := 0, branches := 0, objectiveValue := 3,
    bestObjectiveBound := 3 }

def w4cr : CompileResult :=
  { model := { vars := [⟨0, 1, "x"⟩, ⟨0, 1, "violation_cap"⟩, ⟨0, 1, "violation_floor"⟩],
               constraints := [.le ⟨[(0, 1)], 0⟩ ⟨[(1, 1)], 0⟩,
                               .ge ⟨[(0, 1), (2, 1)], 0⟩ ⟨[], 1⟩],
               objective := some ("minimize", ⟨[(1, 3), (2, 2)], 0⟩) },
    bounds := [("x", ⟨0, 1⟩)], vars_map := [("x", 0)], intervals_map := [],
    penalty_terms := [⟨[(1, 3)], 0⟩, ⟨[(2, 2)], 0⟩],
    tracked := [⟨"cap", 1, 0, "<=", [⟨"x", 1⟩]⟩, ⟨"floor", 2, 1, ">=", [⟨"x", 1⟩]⟩],
    hasObjective := true }

/-- Witness for C4 (amended): the violated `cap` constraint is reported, the
satisfied `floor` constraint is not, and a non-empty caller id survives. -/
theorem violation_records_amended_witness :
    compileRequest w4req = .ok w4cr ∧
    computeSoftViolations w4cr.tracked w4cr.vars_map
      (w4oracle w4cr.model (requestParams w4req)).assignment = .ok [⟨"cap", 1, 0, 1⟩] ∧
    (solve_request w4req w4oracle).softViolations = some [⟨"cap", 1, 0, 1⟩] ∧
    softConstraintId { type := "soft_linear", id := some "cap" } 0 = "cap" :=
  ⟨rfl, rfl,
   by
    have h := (violation_records_amended w4req w4oracle w4cr rfl (Or.inl (by decide))
      [⟨"cap", 1, 0, 1⟩] rfl).1
    simpa using h,
   (violation_records_amended w4req w4oracle w4cr rfl (Or.inl (by decide))
      [⟨"cap", 1, 0, 1⟩] rfl).2.2.2 { type := "soft_linear", id := some "cap" } "cap" 0 rfl
      (by decide)⟩

theorem dedupAppend_cons (ks : List String) (n : String) (rest : List String) :
    dedupAppend ks (n :: rest) =
      dedupAppend (if n ∈ ks then ks else ks ++ [n]) rest := by
  by_cases h : n ∈ ks <;> simp [dedupAppend, h]

/-- The scalar name→handle dict built by the variable-creation loop has one
key per distinct scalar name, in first-occurrence order. -/
theorem materializeVariables_keys (l : List Variable) :
    ∀ (m : CpModel) (vm : VarsMap) (im : IntervalsMap)
      (res : CpModel × VarsMap × IntervalsMap),
      materializeVariables m vm im l = .ok res →
      res.2.1.map Prod.fst = dedupAppend (vm.map Prod.fst) (scalarNames l) := by
  induction l with
  | nil =>
    intro m vm im res h
    simp only [materializeVariables, Except.ok.injEq] at h
    subst h
    simp [scalarNames, dedupAppend]
  | cons v rest ih =>
    intro m vm im res h
    simp only [materializeVariables] at h
    by_cases hb : v.type = "bool"
    · rw [if_pos hb] at h
      have hkeys := ih _ _ _ _ h
      rw [hkeys, dictInsert_keys]
      have hsn : scalarNames (v :: rest) = v.name :: scalarNames rest := by
        simp [scalarNames, hb]
      rw [hsn, dedupAppend_cons]
    · rw [if_neg hb] at h
      by_cases hi : v.type = "int"
      · rw [if_pos hi] at h
        cases hmn : v.min with
        | none =>
          rw [hmn] at h
          exact absurd h (by simp)
        | some mn =>
          rw [hmn] at h
          cases hmx : v.max with
          | none =>
            rw [hmx] at h
            exact absurd h (by simp)
          | some mx =>
            rw [hmx] at h
            have hkeys := ih _ _ _ _ h
            rw [hkeys, dictInsert_keys]
            have hsn : scalarNames (v :: rest) = v.name :: scalarNames rest := by
              simp [scalarNames, hi]
            rw [hsn, dedupAppend_cons]
      · rw [if_neg hi] at h
        by_cases hiv : v.type = "interval"
        · rw [if_pos hiv] at h
          have hsn : scalarNames (v :: rest) = scalarNames rest := by
            simp [scalarNames, hb, hi]
          rw [hsn]
          split at h
          · split at h
            · exact absurd h (by simp)
            · split at h
              · exact ih _ _ _ _ h
              · split at h
                · exact absurd h (by simp)
                · exact ih _ _ _ _ h
          · exact absurd h (by simp)
        · rw [if_neg hiv] at h
          exact absurd h (by simp)

/-- After compilation the scalar variable map keys are exactly the distinct
declared scalar names in declaration order. -/
theorem compileRequest_vars_map_keys (request : SolverRequest) (cr : CompileResult)
    (h : compileRequest request = .ok cr) :
    cr.vars_map.map Prod.fst = dedupAppend [] (scalarNames request.variables) := by
  unfold compileRequest at h
  obtain ⟨bounds, hb, h⟩ := except_bind_ok _ _ _ h
  obtain ⟨trip, hmz, h⟩ := except_bind_ok _ _ _ h
  obtain ⟨m1, vm, im⟩ := trip
  obtain ⟨trip2, hcc, h⟩ := except_bind_ok _ _ _ h
  obtain ⟨m2, pts, tr⟩ := trip2
  obtain ⟨pair, hbo, h⟩ := except_bind_ok _ _ _ h
  obtain ⟨m3, hasObj⟩ := pair
  simp only [Except.ok.injEq] at h
  subst h
  exact materializeVariables_keys request.variables {} [] [] (m1, vm, im) hmz

/-- Two boolean variables declared under the same name. -/
def cex10req : SolverRequest :=
  { «variables» := [{ type := "bool", name := "x" }, { type := "bool", name := "x" }],
    constraints := [] }

/-- C10 counterexample: two declared boolean variables share the name `x`,
yet the returned value map holds a single entry — not one entry per declared
variable. -/
theorem values_per_variable_cex :
    cex10req.variables.map Variable.name = ["x", "x"] ∧
    cex10req.variables.map Variable.type = ["bool", "bool"] ∧
    solve_request cex10req oracleAllOne =
      { status := "OPTIMAL", values := some [("x", 1)],
        statistics := some [("solveTimeMs", 0), ("conflicts", 0), ("branches", 0)],
        error := none, solutionInfo := none, softViolations := none } :=
  ⟨rfl, rfl, rfl⟩

/-- C10 amended: on a successful solve the value map holds exactly one integer
entry per distinct declared scalar (boolean or integer) name, keyed in
first-occurrence declaration order, each entry being the oracle's value for
the handle that name last resolved to; names declared only as intervals and
the internally created slack variables never contribute keys. -/
theorem values_per_declared_name_amended
    (request : SolverRequest) (oracle : Oracle) (cr : CompileResult)
    (hcr : compileRequest request = .ok cr)
    (hst : (oracle cr.model (requestParams request)).status = cpOPTIMAL ∨
           (oracle cr.model (requestParams request)).status = cpFEASIBLE)
    (vs : List SoftConstraintViolation)
    (hvs : computeSoftViolations cr.tracked cr.vars_map
      (oracle cr.model (requestParams request)).assignment = .ok vs) :
    (solve_request request oracle).values =
      some (cr.vars_map.map (fun p =>
        (p.1, (oracle cr.model (requestParams request)).assignment p.2))) ∧
    (cr.vars_map.map (fun p =>
        (p.1, (oracle cr.model (requestParams request)).assignment p.2))).map Prod.fst =
      dedupAppend [] (scalarNames request.variables) := by
  constructor
  · rw [solve_request_success request oracle cr hcr hst vs hvs]
  · rw [List.map_map]
    exact compileRequest_vars_map_keys request cr hcr

def w10req : SolverRequest :=
  { «variables» := [{ type := "bool", name := "x" },
                    { type := "interval", name := "iv", start := some 0, end_ := some 2,
                      size := some 2 },
                    { type := "int", name := "y", min := some 0, max := some 5 }],
    constraints := [] }

def w10cr : CompileResult :=
  { model := { vars := [⟨0, 1, "x"⟩, ⟨0, 0, ""⟩, ⟨2, 2, ""⟩, ⟨0, 5, "y"⟩],
               intervals := [⟨1, 2, 2, none, "iv"⟩] },
    bounds := [("x", ⟨0, 1⟩), ("y", ⟨0, 5⟩)], vars_map := [("x", 0), ("y", 3)],
    intervals_map := [("iv", 0)], penalty_terms := [], tracked := [],
    hasObjective := false }

/-- Witness for C10 (amended): a boolean, an interval and an integer — the
value map keys are exactly `x` and `y`; the interval and the engine-side
constants never appear. -/
theorem values_per_declared_name_amended_witness :
    compileRequest w10req = .ok w10cr ∧
    (solve_request w10req oracleAllOne).values = some [("x", 1), ("y", 1)] ∧
    [("x", (1 : Int)), ("y", 1)].map Prod.fst = dedupAppend [] (scalarNames w10req.variables) :=
  ⟨rfl,
   by
    have h := (values_per_declared_name_amended w10req oracleAllOne w10cr rfl
      (Or.inl (by decide)) [] rfl).1
    simpa using h,
   by
    have h := (values_per_declared_name_amended w10req oracleAllOne w10cr rfl
      (Or.inl (by decide)) [] rfl).2
    simpa using h⟩

/-- An integer variable whose declared min exceeds its declared max. -/
def cex7req : SolverRequest :=
  { «variables» := [{ type := "int", name := "x", min := some 5, max := some 3 }],
    constraints := [] }

def cex7cr : CompileResult :=
  { model := { vars := [⟨5, 3, "x"⟩] },
    bounds := [("x", ⟨5, 3⟩)], vars_map := [("x", 0)], intervals_map := [],
    penalty_terms := [], tracked := [], hasObjective := false }

/-- C7 counterexample: an integer variable declared with min 5 and max 3 gets
the computed bounds (5, 3) — lower > upper — and compilation nevertheless
succeeds, so the request reaches the oracle instead of failing with an ERROR
status. -/
theorem int_bounds_order_cex :
    collect_bounds cex7req.variables = .ok [("x", ⟨5, 3⟩)] ∧
    ¬ ((5 : Int) ≤ 3) ∧
    compileRequest cex7req = .ok cex7cr ∧
    solve_request cex7req oracleInfeasible =
      { status := "INFEASIBLE", values := none, statistics := none, error := none,
        solutionInfo := some "presolve", softViolations := none } :=
  ⟨rfl, by decide, rfl, rfl⟩

/-- C7 amended: the bounds computed for an integer variable are exactly its
declared (min, max) pair with no ordering validation — min > max compiles and
reaches the oracle — while an integer variable missing min or max fails
compilation with an ERROR response identical for every oracle. -/
theorem collect_bounds_amended (v : Variable) (hv : v.type = "int") :
    (∀ mn mx : Int, v.min = some mn → v.max = some mx →
      collect_bounds [v] = .ok [(v.name, ⟨mn, mx⟩)]) ∧
    ((v.min = none ∨ v.max = none) →
      ∀ (cs : List Constraint) (obj : Option Objective) (opts : Option Options)
        (oracle : Oracle),
        solve_request ⟨[v], cs, obj, opts⟩ oracle =
          { status := "ERROR",
            error := some ("Int variable " ++ v.name ++ " requires min and max") }) := by
  constructor
  · intro mn mx hmn hmx
    simp [collect_bounds, collect_bounds_loop, hv, hmn, hmx, dictInsert]
  · intro hmiss cs obj opts oracle
    have hcb : collect_bounds [v] =
        .error ("Int variable " ++ v.name ++ " requires min and max") := by
      rcases hmiss with hmn | hmx
      · cases hmx2 : v.max <;>
          simp [collect_bounds, collect_bounds_loop, hv, hmn, hmx2]
      · cases hmn2 : v.min <;>
          simp [collect_bounds, collect_bounds_loop, hv, hmn2, hmx]
    have hcore : solveRequestCore ⟨[v], cs, obj, opts⟩ oracle =
        .error ("Int variable " ++ v.name ++ " requires min and max") := by
      unfold solveRequestCore compileRequest
      simp [hcb, Bind.bind, Except.bind]
    exact solve_request_error _ _ _ hcore

/-- Witness for C7 (amended): declared bounds are stored verbatim, and a
missing min yields the bare ERROR response. -/
theorem collect_bounds_amended_witness :
    collect_bounds [{ type := "int", name := "y", min := some 2, max := some 9 }] =
      .ok [("y", ⟨2, 9⟩)] ∧
    solve_request ⟨[{ type := "int", name := "y", min := none, max := some 9 }], [], none, none⟩
        oracle0 =
      { status := "ERROR", error := some "Int variable y requires min and max" } :=
  ⟨(collect_bounds_amended { type := "int", name := "y", min := some 2, max := some 9 } rfl).1
      2 9 rfl rfl,
   (collect_bounds_amended { type := "int", name := "y", min := none, max := some 9 } rfl).2
      (Or.inl rfl) [] none none oracle0⟩

/-- An interval whose presence name refers to an integer variable. -/
def cex8req : SolverRequest :=
  { «variables» := [{ type := "int", name := "p", min := some 0, max := some 1 },
                    { type := "interval", name := "iv", start := some 0, end_ := some 2,
                      size := some 2, presenceVar := some "p" }],
    constraints := [] }

def cex8result : CompileResult :=
  { model := { vars := [⟨0, 1, "p"⟩, ⟨0, 0, ""⟩, ⟨2, 2, ""⟩],
               intervals := [⟨1, 2, 2, some 0, "iv"⟩] },
    bounds := [("p", ⟨0, 1⟩)], vars_map := [("p", 0)], intervals_map := [("iv", 0)],
    penalty_terms := [], tracked := [], hasObjective := false }

/-- C8 counterexample: the presence name resolves to an integer variable — not
a materialized boolean — yet materialization succeeds with no error at all,
creating the optional interval gated on that integer variable's handle. -/
theorem interval_presence_not_boolean_cex :
    cex8req.variables.map Variable.type = ["int", "interval"] ∧
    compileRequest cex8req = .ok cex8result ∧
    cex8result.model.intervals = [⟨1, 2, 2, some 0, "iv"⟩] :=
  ⟨rfl, rfl, rfl⟩

/-- C8 amended: materializing an interval yields an ERROR response when
`end - start != size`; it fails with an unknown-variable error when the
presence name is absent from the scalar map; and with a presence name
resolving to any materialized scalar variable (boolean or integer) an
optional interval gated on that variable's handle is created — boolean-ness
of the presence variable is not validated by this layer. -/
theorem interval_materialization_amended
    (m : CpModel) (vm : VarsMap) (im : IntervalsMap) (v : Variable) (rest : List Variable)
    (hv : v.type = "interval") (s en sz : Int)
    (hs : v.start = some s) (hee : v.end_ = some en) (hsz : v.size = some sz) :
    (en - s ≠ sz →
      ∀ (cs : List Constraint) (obj : Option Objective) (opts : Option Options)
        (oracle : Oracle),
      solve_request ⟨[v], cs, obj, opts⟩ oracle =
        { status := "ERROR",
          error := some ("Interval variable " ++ v.name ++ " inconsistent: end-start=" ++
            toString (en - s) ++ " != size=" ++ toString sz) }) ∧
    (en - s = sz → ∀ pn, v.presenceVar = some pn → dictGet? vm pn = none →
      materializeVariables m vm im (v :: rest) =
        .error ("Interval variable " ++ v.name ++ " references unknown presenceVar " ++ pn)) ∧
    (en - s = sz → ∀ pn ph, v.presenceVar = some pn → dictGet? vm pn = some ph →
      materializeVariables m vm im (v :: rest) =
        materializeVariables
          { m with vars := m.vars ++ [⟨s, s, ""⟩, ⟨en, en, ""⟩],
                   intervals := m.intervals ++
                     [⟨m.vars.length, sz, m.vars.length + 1, some ph, v.name⟩] }
          vm (dictInsert v.name m.intervals.length im) rest) := by
  refine ⟨?_, ?_, ?_⟩
  · intro hne cs obj opts oracle
    have hcb : collect_bounds [v] = .ok [] := by
      simp [collect_bounds, collect_bounds_loop, hv]
    have hmz : materializeVariables {} [] [] [v] =
        .error ("Interval variable " ++ v.name ++ " inconsistent: end-start=" ++
          toString (en - s) ++ " != size=" ++ toString sz) := by
      simp [materializeVariables, hv, hs, hee, hsz, hne]
    have hcore : solveRequestCore ⟨[v], cs, obj, opts⟩ oracle =
        .error ("Interval variable " ++ v.name ++ " inconsistent: end-start=" ++
          toString (en - s) ++ " != size=" ++ toString sz) := by
      unfold solveRequestCore compileRequest
      simp [hcb, hmz, Bind.bind, Except.bind]
    exact solve_request_error _ _ _ hcore
  · intro hcons pn hpn hnone
    simp [materializeVariables, hv, hs, hee, hsz, hcons, hpn, hnone]
  · intro hcons pn ph hpn hsome
    simp [materializeVariables, hv, hs, hee, hsz, hcons, hpn, hsome,
      CpModel.newConstant, CpModel.newIntVar, CpModel.addInterval]

/-- Interval declarations used by the C8 witness. -/
def ivBad : Variable :=
  { type := "interval", name := "iv", start := some 0, end_ := some 3, size := some 2 }

def ivUnknownPresence : Variable :=
  { type := "interval", name := "iv", start := some 0, end_ := some 2, size := some 2,
    presenceVar := some "q" }

def ivPresenceX : Variable :=
  { type := "interval", name := "iv", start := some 0, end_ := some 2, size := some 2,
    presenceVar := some "x" }

/-- Witness for C8 (amended): an inconsistent interval yields ERROR; an
unknown presence name raises the unknown-variable error; a resolvable
presence name (here the boolean `x`) materializes the optional interval. -/
theorem interval_materialization_amended_witness :
    solve_request ⟨[ivBad], [], none, none⟩ oracle0 =
      { status := "ERROR",
        error := some "Interval variable iv inconsistent: end-start=3 != size=2" } ∧
    materializeVariables {} [] [] [ivUnknownPresence] =
      .error "Interval variable iv references unknown presenceVar q" ∧
    materializeVariables mW vmW [] [ivPresenceX] =
      materializeVariables
        { mW with vars := mW.vars ++ [⟨0, 0, ""⟩, ⟨2, 2, ""⟩],
                  intervals := mW.intervals ++
                    [⟨mW.vars.length, 2, mW.vars.length + 1, some 0, "iv"⟩] }
        vmW (dictInsert "iv" mW.intervals.length []) [] :=
  ⟨(interval_materialization_amended {} [] [] ivBad [] rfl 0 3 2 rfl rfl rfl).1
      (by decide) [] none none oracle0,
   (interval_materialization_amended {} [] [] ivUnknownPresence [] rfl 0 2 2
      rfl rfl rfl).2.1 rfl "q" rfl rfl,
   (interval_materialization_amended mW vmW [] ivPresenceX [] rfl 0 2 2
      rfl rfl rfl).2.2 rfl "x" 0 rfl rfl⟩

end SolverSpec

